import Mathlib

/-!
# Playback controller of the audio-book client (`internal/player/player.go`)

A shallow embedding of the `Player` type and of its methods, followed by the
properties of the controller that are checked against it.

Conventions of the embedding:

* Go `int` and `int64` values are integers of `Int`; where the Go code does
  arithmetic on them the result is wrapped by `wrapInt` to 64 bits, the width
  of `int` on a 64-bit platform.  Sums of an index and a length of the
  playlist are not wrapped: a Go slice has fewer than 2^63 elements.
* `float64` values are `Float64`: the three special values and the finite
  values (every finite `float64` is a rational number).  The player only
  compares speeds; the one addition it performs is a parameter.
* The methods are written for a non-nil receiver: on a nil receiver every
  method of the source returns at once.
* Everything outside `player.go` that the player calls (the track, the file
  system, the network, the bookmark store, the GUI) appears as data: the
  results come from an `Env`, the calls are recorded in an event log.

There are two models of the execution.  In the first one (`World`, `step`,
`run`) the worker advances without interference from one blocking point to
the next, between two control operations or inside `SetTrack`, `ChangeTrack`
and `PlayPause` at the places where these have released the lock; `Stop`
waits for the worker by letting it run to its exit.  In the second one
(`Sys`, `mstep`, `mrun`) the same code is cut into the atomic actions of the
control thread and of the worker goroutines, which interleave freely.
-/

namespace Av3715

/-! ## Basic data -/

/-- The fields of `daisy.Resource` that the player reads. -/
structure Resource where
  MimeType : String
  URI : String
  LocalURI : String
  Size : Int
deriving DecidableEq, Repr

/-- Supported mime type of content: MP3. -/
def MP3_FORMAT : String := "audio/mpeg"

/-- Supported mime type of content: LKF. -/
def LKF_FORMAT : String := "audio/x-lkf"

/-- Go `int` arithmetic (64 bits, two's complement): the representative of `x`
in `[-2^63, 2^63)`. -/
def wrapInt (x : Int) : Int := (x + 2 ^ 63) % 2 ^ 64 - 2 ^ 63

/-- The values of a `float64`: not-a-number, the two infinities and the finite
values, each of which is a rational number. -/
inductive Float64 where
  | nan
  | negInf
  | posInf
  | fin (q : ℚ)
deriving DecidableEq

namespace Float64

/-- The comparison `a < b` of two `float64` values: false as soon as one of
them is not a number. -/
def lt : Float64 → Float64 → Bool
  | nan, _ => false
  | _, nan => false
  | fin a, fin b => decide (a < b)
  | negInf, negInf => false
  | negInf, _ => true
  | _, negInf => false
  | posInf, _ => false
  | fin _, posInf => true

/-- The comparison `a <= b` of two `float64` values. -/
def le : Float64 → Float64 → Bool
  | nan, _ => false
  | _, nan => false
  | fin a, fin b => decide (a ≤ b)
  | negInf, _ => true
  | _, posInf => true
  | posInf, _ => false
  | fin _, negInf => false

end Float64

/-- The constant `DEFAULT_SPEED`, 1.0. -/
def DEFAULT_SPEED : Float64 := .fin 1

/-- The constant `MIN_SPEED`, 0.5. -/
def MIN_SPEED : Float64 := .fin (1 / 2)

/-- The constant `MAX_SPEED`, 3.0. -/
def MAX_SPEED : Float64 := .fin 3

/-- A speed lies in the closed interval `[MIN_SPEED, MAX_SPEED]`. -/
def speedInRange (s : Float64) : Prop :=
  MIN_SPEED.le s = true ∧ s.le MAX_SPEED = true

instance (s : Float64) : Decidable (speedInRange s) := by
  unfold speedInRange; infer_instance

/-- Modelled from the spec: the `track` type of the package, which is declared
outside of `player.go`.  A Track owns the playback speed, the output device
with its left and right gain (two `uint16` values), the pause state and the
elapsed playback time; `stop` interrupts its blocking `play`.  `sought` is the
argument of the last `rewind` the track received. -/
structure Track where
  speed : Float64
  volL : Nat
  volR : Nat
  paused : Bool
  stopped : Bool
  elapsed : Int
  sought : Int
deriving DecidableEq

/-- The state of a `Player`.  `playing` is the `flag.Flag`, a shared boolean
that is set, cleared and polled atomically; `wg` is the counter of the
`sync.WaitGroup`; `trk` is the pointer to the track of the worker, nil when no
track is published. -/
structure Player where
  playList : List Resource
  bookID : String
  bookName : String
  playing : Bool
  wg : Nat
  pause : Bool
  trk : Option Track
  speed : Float64
  fragment : Int
  offset : Int
deriving DecidableEq

/-- A resource whose media type is one of the two supported ones, as the
specification words it. -/
def supported (r : Resource) : Bool :=
  r.MimeType == "audio/mpeg" || r.MimeType == "audio/x-lkf"

/-- The `NewPlayer` constructor: the loop appends every supported resource to
the playlist. -/
def NewPlayer (bookID bookName : String) (resources : List Resource) : Player :=
  let p : Player :=
    { playList := [], bookID := bookID, bookName := bookName, playing := false, wg := 0,
      pause := false, trk := none, speed := DEFAULT_SPEED, fragment := 0, offset := 0 }
  resources.foldl
    (fun p r =>
      if r.MimeType == LKF_FORMAT || r.MimeType == MP3_FORMAT then
        { p with playList := p.playList ++ [r] }
      else p)
    p

/-! ## Speed -/

/-- Modelled from the spec: `track.setSpeed` of the `track` type, which is
declared outside of `player.go`: the track takes the speed it is given. -/
def Track.setSpeed (t : Track) (speed : Float64) : Track := { t with speed := speed }

/-- The method `Player.SetSpeed`. -/
def SetSpeed (p : Player) (speed : Float64) : Player :=
  let p1 : Player :=
    if speed.lt MIN_SPEED then { p with speed := MIN_SPEED }
    else if MAX_SPEED.lt speed then { p with speed := MAX_SPEED }
    else { p with speed := speed }
  match p1.trk with
  | some t => { p1 with trk := some (t.setSpeed p1.speed) }
  | none => p1

/-- The method `Player.ChangeSpeed`; `add` is the addition of `float64`. -/
def ChangeSpeed (add : Float64 → Float64 → Float64) (p : Player) (offset : Float64) : Player :=
  let newSpeed := add p.speed offset
  SetSpeed p newSpeed

/-! ## Volume -/

/-- The method `Player.ChangeVolume`: the gains read from the output device
are those of the active track, the new gains are written back to it. -/
def ChangeVolume (p : Player) (offset : Int) : Player :=
  match p.trk with
  | none => p
  | some t =>
    let l : Int := t.volL
    let r : Int := t.volR
    let newOffset := wrapInt (offset * 4096)
    let newL := wrapInt (l + newOffset)
    let newR := wrapInt (r + newOffset)
    let newL := if newL < 0 then 0 else newL
    let newL := if newL > 0xffff then 0xffff else newL
    let newR := if newR < 0 then 0 else newR
    let newR := if newR > 0xffff then 0xffff else newR
    { p with trk := some { t with volL := (newL % 65536).toNat, volR := (newR % 65536).toNat } }

/-- The value of `x` clamped to `[lo, hi]`, as the specification words the
result of `ChangeVolume`. -/
def clamp (x lo hi : Int) : Int := if x < lo then lo else if x > hi then hi else x

/-! ## The collaborators of the player -/

/-- The kind of a file-system entry as `os.Stat` reports it: a directory, a
regular file, or anything else (device, named pipe, socket, irregular). -/
inductive FileKind where
  | dir
  | regular
  | other
deriving DecidableEq, Repr

/-- The part of `os.FileInfo` the worker looks at. -/
structure FileInfo where
  kind : FileKind
  size : Int
deriving DecidableEq, Repr

/-- The method `FileInfo.IsDir`. -/
def FileInfo.IsDir (info : FileInfo) : Bool := info.kind == .dir

/-- The method `FileInfo.Size`. -/
def FileInfo.Size (info : FileInfo) : Int := info.size

/-- A value of the interface type `io.ReadCloser`, as the variable `src` of the
worker holds it: the nil interface, a `*os.File` (whose pointer is `none` when
`os.Open` failed and returned a nil pointer), or a network connection. -/
inductive ReadCloser where
  | nil
  | file (f : Option Nat)
  | conn (c : Nat)
deriving DecidableEq, Repr

/-- The reader handed to the decoder: the LKF wrapper around the source, or
the source itself. -/
inductive Reader where
  | lkf (src : ReadCloser)
  | plain (src : ReadCloser)
deriving DecidableEq, Repr

/-- The results of the calls the player makes outside of `player.go`.
`cachePath bookName localURI` is
`filepath.Join(config.UserData(), util.ReplaceProhibitCharacters(bookName), localURI)`;
`stat`, `openFile` and `connect` are `os.Stat`, `os.Open` and
`connect.NewConnection` (`none` is an error); `decodes` tells whether
`newTrack` succeeds on a reader, `gain` is the gain of the output device a new
track starts with, `seeks` tells whether `rewind` succeeds. -/
structure Env where
  cachePath : String → String → String
  stat : String → Option FileInfo
  openFile : String → Option Nat
  connect : String → Option Nat
  decodes : Reader → Bool
  gain : Nat × Nat
  seeks : Track → Int → Bool

/-- The calls and the visible actions of the player, in the order they happen. -/
inductive Event where
  | playingSet
  | playingClear
  | trkStop
  | setBook (bookID bookName : String) (fragment elapsed : Int)
  | launch (startFragment : Int)
  | openFile (path : String)
  | connect (uri : String)
  | newTrack (uri : String) (ok : Bool)
  | rewind (offset : Int) (ok : Bool)
  | close (src : ReadCloser)
  | publish (fragment : Int)
  | setFragments (current total : Int)
  | play (fragment : Int)
  | played (fragment elapsed : Int)
  | done
deriving DecidableEq, Repr

/-- Modelled from the spec: `newTrack` of the missing `track` file.  It
constructs a Track with the given speed on the output device, or fails. -/
def newTrack (env : Env) (mp3 : Reader) (speed : Float64) (_size : Int) : Option Track :=
  if env.decodes mp3 then
    some { speed := speed, volL := env.gain.1, volR := env.gain.2, paused := false,
           stopped := false, elapsed := 0, sought := 0 }
  else none

/-- Modelled from the spec: `track.rewind` of the missing `track` file.  It
seeks the track to the absolute position `offset`; the boolean is false when
the seek fails, in which case the position stays as it was. -/
def Track.rewind (env : Env) (t : Track) (offset : Int) : Track × Bool :=
  if env.seeks t offset then ({ t with elapsed := offset, sought := offset }, true)
  else ({ t with sought := offset }, false)

/-- Modelled from the spec: `track.pause` of the missing `track` file. -/
def Track.pause (t : Track) (pause : Bool) : Track := { t with paused := pause }

/-- Modelled from the spec: `track.stop` of the missing `track` file: the
blocking `play` of a stopped track returns. -/
def Track.stop (t : Track) : Track := { t with stopped := true }

/-- Modelled from the spec: `track.getElapsedTime` of the missing `track` file. -/
def Track.getElapsedTime (t : Track) : Int := t.elapsed

/-! ## The playback worker -/

/-- Where the worker goroutine of a player stands between two steps of the
system: `launched` after `go p.start(startFragment)` and before the first
statement of `start`; `inPlay` while it is blocked in `trk.play()` during the
iteration of index `i`, with source `src` and the resources `rest` still to
come in the range loop. -/
inductive WorkerPos where
  | launched (startFragment : Int)
  | inPlay (startFragment : Int) (i : Nat) (src : ReadCloser) (rest : List Resource)
deriving DecidableEq

/-- The player together with its worker goroutine, the log of what happened
and whether the program aborted by `panic`. -/
structure World where
  p : Player
  worker : Option WorkerPos
  log : List Event
  panicked : Bool
deriving DecidableEq

/-- Append events to the log. -/
def World.emit (w : World) (evs : List Event) : World := { w with log := w.log ++ evs }

/-- The local file of the resource, lines 231 to 237 of `start`: `src` stays nil
unless `os.Stat` succeeds on a non-directory of the declared size; then `src`
receives the `*os.File` that `os.Open` returns.  When `os.Open` fails this is
a nil pointer inside a non-nil interface value, so that the test `src == nil`
of line 239 is false all the same. -/
def localSource (env : Env) (uri : String) (r : Resource) : ReadCloser :=
  match env.stat uri with
  | some info =>
    if !info.IsDir && info.Size == r.Size then .file (env.openFile uri)
    else .nil
  | none => .nil

/-- The outcome of the resolution of a resource: the connection failed, or the
source and the uri it was opened from. -/
inductive Resolved where
  | failed
  | ok (src : ReadCloser) (uri : String)
deriving DecidableEq, Repr

/-- The resolution of a resource, lines 231 to 247 of `start`. -/
def resolve (env : Env) (bookName : String) (r : Resource) : Resolved :=
  let uri := env.cachePath bookName r.LocalURI
  let src := localSource env uri r
  if src == .nil then
    -- There is no track on the disc. Trying to get it from the network
    let uri := r.URI
    match env.connect uri with
    | none => .failed
    | some c => .ok (.conn c) uri
  else .ok src uri

/-- The events of a resolution: the `os.Open` of the local path when it is
attempted, the `connect.NewConnection` when it is attempted. -/
def resolveEvents (env : Env) (bookName : String) (r : Resource) : List Event :=
  let uri := env.cachePath bookName r.LocalURI
  let src := localSource env uri r
  (if src == .nil then [] else [Event.openFile uri]) ++
  (if src == .nil then [Event.connect r.URI] else [])

/-- The format dispatch, lines 249 to 257 of `start`; `none` is the `panic` of
the default branch. -/
def dispatch (r : Resource) (src : ReadCloser) : Option Reader :=
  if r.MimeType == LKF_FORMAT then some (.lkf src)
  else if r.MimeType == MP3_FORMAT then some (.plain src)
  else none

/-- How one iteration of the range loop of `start` ends: by `break`, by
`continue`, inside `trk.play()`, or by `panic`. -/
inductive Iter where
  | brk (w : World)
  | cont (w : World)
  | play (w : World) (src : ReadCloser)
  | abort (w : World)

/-- One iteration of the range loop of `start`, from its first statement to
the call of `trk.play()` (lines 227 to 289). -/
def iteration (env : Env) (w : World) (startFragment : Int) (i : Nat) (r : Resource) : Iter :=
  let w := w.emit (resolveEvents env w.p.bookName r)
  match resolve env w.p.bookName r with
  | .failed => .brk w
  | .ok src uri =>
    match dispatch r src with
    | none => .abort w
    | some mp3 =>
      let speed := w.p.speed
      let offset := w.p.offset
      let w := { w with p := { w.p with offset := 0 } }
      match newTrack env mp3 speed r.Size with
      | none => .cont (w.emit [.newTrack uri false])
      | some trk =>
        let w := w.emit [.newTrack uri true]
        match trk.rewind env offset with
        | (_, false) => .cont (w.emit [.rewind offset false])
        | (trk, true) =>
          let w := w.emit [.rewind offset true]
          if !w.p.playing then .brk (w.emit [.close src])
          else
            let currentFragment := startFragment + i
            let w := { w with p := { w.p with trk := some trk, fragment := currentFragment } }
            .play (w.emit [.publish currentFragment,
                           .setFragments currentFragment w.p.playList.length,
                           .play currentFragment]) src

/-- The end of `start`: the deferred `p.playing.Clear()`, then the deferred
`p.wg.Done()`; the goroutine is gone. -/
def workerExit (w : World) : World :=
  { w with p := { w.p with playing := false, wg := w.p.wg - 1 },
           worker := none, log := w.log ++ [.playingClear, .done] }

/-- The statements that follow the return of `trk.play()`, lines 290 to 295:
the source is closed and the published track is cleared. -/
def afterPlay (w : World) (startFragment : Int) (i : Nat) (src : ReadCloser) : World :=
  let elapsed := match w.p.trk with
    | some t => t.elapsed
    | none => 0
  { w with p := { w.p with trk := none },
           log := w.log ++ [.played (startFragment + i) elapsed, .close src] }

/-- The range loop of `start` over the resources still to come.  With
`through = false` the worker runs until it blocks in `trk.play()`, where its
position is recorded; with `through = true` every `trk.play()` runs to its
return as well (nothing interferes), so the worker runs until it exits. -/
def loop (env : Env) (through : Bool) (startFragment : Int) :
    List Resource → Nat → World → World
  | [], _, w => workerExit w
  | r :: rest, i, w =>
    match iteration env w startFragment i r with
    | .brk w => workerExit w
    | .cont w => loop env through startFragment rest (i + 1) w
    | .abort w => { w with panicked := true }
    | .play w src =>
      if through then
        let w := afterPlay w startFragment i src
        if !w.p.playing then workerExit w
        else loop env through startFragment rest (i + 1) w
      else { w with worker := some (.inPlay startFragment i src rest) }

/-- The method `Player.start`, the body of the worker: the flag is set, the
playlist is sliced at `startFragment` (out of bounds: the run-time `panic` of
the slice expression) and the range loop runs. -/
def start (env : Env) (through : Bool) (w : World) (startFragment : Int) : World :=
  let w := { w with p := { w.p with playing := true }, log := w.log ++ [.playingSet] }
  if 0 ≤ startFragment ∧ startFragment ≤ w.p.playList.length then
    loop env through startFragment (w.p.playList.drop startFragment.toNat) 0 w
  else { w with panicked := true }

/-- The worker resumes after `trk.play()` returned: lines 290 to 299, then the
rest of the loop. -/
def resume (env : Env) (through : Bool) (w : World) (startFragment : Int) (i : Nat)
    (src : ReadCloser) (rest : List Resource) : World :=
  let w := afterPlay w startFragment i src
  if !w.p.playing then workerExit w
  else loop env through startFragment rest (i + 1) w

/-- The call `p.wg.Wait()`: the caller is blocked until the worker, if there is
one, has run to its exit.  A worker that has not begun runs its whole
session; a worker blocked in `trk.play()` resumes when the call returns. -/
def join (env : Env) (w : World) : World :=
  match w.worker with
  | none => w
  | some (.launched startFragment) => start env true w startFragment
  | some (.inPlay startFragment i src rest) => resume env true w startFragment i src rest

/-! ## The control operations -/

/-- The method `Player.Stop`. -/
def Stop (env : Env) (w : World) : World :=
  let w : World := { w with p := { w.p with playing := false }, log := w.log ++ [.playingClear] }
  let elapsedTime := match w.p.trk with
    | some t => t.getElapsedTime
    | none => w.p.offset
  let w : World := match w.p.trk with
    | some t => { w with p := { w.p with trk := some t.stop }, log := w.log ++ [.trkStop] }
    | none => w
  let w := w.emit [.setBook w.p.bookID w.p.bookName w.p.fragment elapsedTime]
  join env w

/-- The method `Player.Play`. -/
def Play (env : Env) (w : World) : World :=
  let w := Stop env w
  { w with p := { w.p with pause := false, wg := w.p.wg + 1 },
           worker := some (.launched w.p.fragment),
           log := w.log ++ [.launch w.p.fragment] }

/-- What the worker of a player can do on its own: the launched worker runs
up to its first `trk.play()` or to its exit, the playing track reaches the end
of its stream and the worker goes on to the next `trk.play()` or to its exit,
the playing track plays for `d` more nanoseconds. -/
inductive Progress where
  | workerRun
  | trackEnd
  | tick (d : Nat)

/-- One move of the worker.  After a `panic` the program is gone and nothing
happens any more. -/
def advance (env : Env) (w : World) (pr : Progress) : World :=
  if w.panicked then w
  else
    match pr with
    | .workerRun =>
      match w.worker with
      | some (.launched startFragment) => start env false w startFragment
      | _ => w
    | .trackEnd =>
      match w.worker with
      | some (.inPlay startFragment i src rest) => resume env false w startFragment i src rest
      | _ => w
    | .tick d =>
      match w.worker, w.p.trk with
      | some (.inPlay _ _ _ _), some t =>
        { w with p := { w.p with trk := some { t with elapsed := t.elapsed + d } } }
      | _, _ => w

/-- Some moves of the worker, one after the other, each with its own
environment. -/
def advanceAll (w : World) : List (Env × Progress) → World
  | [] => w
  | (env, pr) :: rest => advanceAll (advance env w pr) rest

/-- The lines 119 to 122 of `SetTrack`.  The lock is released at line 119, so
the worker may move (`b1`) before the flag is tested at line 120, and again
(`b2`) before the `Play` of line 121 begins. -/
def SetTrack.restart (env : Env) (w : World) (b1 b2 : List (Env × Progress)) : World :=
  let w := advanceAll w b1
  if w.p.playing then Play env (advanceAll w b2) else w

/-- The method `Player.SetTrack`; `b1` and `b2` are the moves of the worker
after the critical section of the method, see `SetTrack.restart`. -/
def SetTrack (env : Env) (w : World) (fragment : Int) (b1 b2 : List (Env × Progress)) :
    World :=
  if fragment < 0 then
    SetTrack.restart env { w with p := { w.p with fragment := 0 } } b1 b2
  else if fragment ≥ w.p.playList.length then w
  else
    SetTrack.restart env { w with p := { w.p with fragment := fragment } } b1 b2

/-- The method `Player.ChangeTrack`: the fragment is read in the critical
section of lines 99 to 101; the worker may move (`b0`) before the call of
`SetTrack` of line 102. -/
def ChangeTrack (env : Env) (w : World) (offset : Int) (b0 b1 b2 : List (Env × Progress)) :
    World :=
  let newFragment := wrapInt (w.p.fragment + offset)
  SetTrack env (advanceAll w b0) newFragment b1 b2

/-- The method `Player.Rewind`. -/
def Rewind (env : Env) (w : World) (offset : Int) : World :=
  if !w.p.playing then { w with p := { w.p with offset := offset } }
  else
    match w.p.trk with
    | some t =>
      let res := t.rewind env offset
      { w with p := { w.p with trk := some res.1 }, log := w.log ++ [.rewind offset res.2] }
    | none => w

/-- The method `Player.PlayPause`: the flag is tested at line 191 without the
lock, so the worker may move (`b`) before `Play`, or before the critical
section of lines 194 to 199. -/
def PlayPause (env : Env) (w : World) (b : List (Env × Progress)) : World :=
  let isSet := w.p.playing
  let w := advanceAll w b
  if !isSet then Play env w
  else
    match w.p.trk with
    | some t =>
      { w with p := { w.p with pause := !w.p.pause, trk := some (t.pause (!w.p.pause)) } }
    | none => w

/-- What can happen to a player: a control operation (`ChangeSpeed` comes
with the addition of `float64`; `SetTrack`, `ChangeTrack` and `PlayPause`
come with the moves of the worker that fall inside them), or a move of the
worker between two control operations. -/
inductive Op where
  | SetTrack (fragment : Int) (b1 b2 : List (Env × Progress))
  | ChangeTrack (offset : Int) (b0 b1 b2 : List (Env × Progress))
  | Play
  | PlayPause (b : List (Env × Progress))
  | Stop
  | Rewind (offset : Int)
  | SetSpeed (speed : Float64)
  | ChangeSpeed (add : Float64 → Float64 → Float64) (offset : Float64)
  | ChangeVolume (offset : Int)
  | workerRun
  | trackEnd
  | tick (d : Nat)

/-- One step of a player.  After a `panic` the program is gone and nothing
happens any more. -/
def step (env : Env) (w : World) (op : Op) : World :=
  if w.panicked then w
  else
    match op with
    | .SetTrack fragment b1 b2 => SetTrack env w fragment b1 b2
    | .ChangeTrack offset b0 b1 b2 => ChangeTrack env w offset b0 b1 b2
    | .Play => Play env w
    | .PlayPause b => PlayPause env w b
    | .Stop => Stop env w
    | .Rewind offset => Rewind env w offset
    | .SetSpeed speed => { w with p := SetSpeed w.p speed }
    | .ChangeSpeed add offset => { w with p := ChangeSpeed add w.p offset }
    | .ChangeVolume offset => { w with p := ChangeVolume w.p offset }
    | .workerRun => advance env w .workerRun
    | .trackEnd => advance env w .trackEnd
    | .tick d => advance env w (.tick d)

/-- A run of a player: each step has its own environment, so the outcome of a
file-system or network call may change from one step to the next. -/
def run (w : World) : List (Env × Op) → World
  | [] => w
  | (env, op) :: rest => run (step env w op) rest

/-- The world of a player that was just built. -/
def World.init (p : Player) : World := { p := p, worker := none, log := [], panicked := false }

/-! ## The interleaving of the control thread and the worker goroutines

The control thread and every worker goroutine advance by atomic actions: a
critical section under the lock of the player, an operation on the flag or on
the wait group, or a call that touches no field of the player.  A critical
section that operates on the flag or on the wait group is cut at that
operation; the control thread keeps the lock between the two parts, and a
worker that needs the lock cannot move meanwhile.  Any number of goroutines
may exist in a state; that there never are two is a property of the
transitions. -/

/-- The operations the control thread can call. -/
inductive Call where
  | SetTrack (fragment : Int)
  | ChangeTrack (offset : Int)
  | Play
  | PlayPause
  | Stop
  | Rewind (offset : Int)
  | SetSpeed (speed : Float64)
  | ChangeSpeed (add : Float64 → Float64 → Float64) (offset : Float64)
  | ChangeVolume (offset : Int)

/-- The next action of the control thread.  In `Stop`: `stopClear` is the
`p.playing.Clear()` of line 208, `stopCrit` the critical section of lines 209
to 217, `stopWait` the `p.wg.Wait()` of line 218; the boolean tells whether
`Stop` was called by `Play`, which goes on with `playAdd`, the lines 180 to
182 (lock, `p.pause = false`, `p.wg.Add(1)`), and `playGo`, the lines 183 and
184 (`go p.start(p.fragment)`, unlock).  `setTrackCrit` is the critical
section of lines 109 to 119 and `setTrackCheck` the test of the flag of line
120; `changeTrackCrit` is the critical section of lines 99 to 101;
`playPauseCheck` is the test of the flag of line 191 and `playPauseCrit` the
critical section of lines 194 to 199; `rewindCheck` is the lock and the test
of the flag of lines 162 to 164 and `rewindCrit` the rest of `Rewind` with
the result of the test; `setSpeedCrit`, `changeSpeedCrit` (lines 69 to 71) and
`changeVolumeCrit` are the critical sections of the methods of these names.
An action contains at most one operation on the flag or on the wait group. -/
inductive Ctl where
  | idle
  | stopClear (thenPlay : Bool)
  | stopCrit (thenPlay : Bool)
  | stopWait (thenPlay : Bool)
  | playAdd
  | playGo
  | setTrackCrit (fragment : Int)
  | setTrackCheck
  | changeTrackCrit (offset : Int)
  | playPauseCheck
  | playPauseCrit
  | rewindCheck (offset : Int)
  | rewindCrit (offset : Int) (isSet : Bool)
  | setSpeedCrit (speed : Float64)
  | changeSpeedCrit (add : Float64 → Float64 → Float64) (offset : Float64)
  | changeVolumeCrit (offset : Int)

/-- The control thread is between two calls. -/
def Ctl.isIdle : Ctl → Bool
  | .idle => true
  | _ => false

/-- The control thread is between two actions of one critical section: it
holds the lock of the player. -/
def Ctl.holdsLock : Ctl → Bool
  | .playGo => true
  | .rewindCrit _ _ => true
  | _ => false

/-- The number of goroutines the control thread has counted in the wait group
and not yet launched. -/
def Ctl.launching : Ctl → Nat
  | .playGo => 1
  | _ => 0

/-- The first action of a call. -/
def Ctl.enter : Call → Ctl
  | .SetTrack fragment => .setTrackCrit fragment
  | .ChangeTrack offset => .changeTrackCrit offset
  | .Play => .stopClear true
  | .PlayPause => .playPauseCheck
  | .Stop => .stopClear false
  | .Rewind offset => .rewindCheck offset
  | .SetSpeed speed => .setSpeedCrit speed
  | .ChangeSpeed add offset => .changeSpeedCrit add offset
  | .ChangeVolume offset => .changeVolumeCrit offset

/-- The next action of a worker goroutine inside `start`: `entry` is the
first statement `p.playing.Set()`; `loopHead i` the top of the range loop;
`take` the critical section of lines 259 to 263; `check` the test of the flag
of line 276; `publish` the critical section of lines 282 to 285; `inPlay` the
blocking `trk.play()`, which may return at any moment (the stream ended or
the track was stopped); `unpublish` the critical section of lines 293 to 295;
`recheck` the test of the flag of line 297; `exitClear` and `exitDone` the
two deferred calls.  The calls that touch no field of the player (resolution,
dispatch, `newTrack`, `rewind`, `src.Close()`) are performed together with
the action they follow or precede. -/
inductive WPc where
  | entry
  | loopHead (i : Nat)
  | take (i : Nat) (r : Resource) (src : ReadCloser) (uri : String) (mp3 : Reader)
  | check (i : Nat) (src : ReadCloser) (trk : Track)
  | publish (i : Nat) (src : ReadCloser) (trk : Track)
  | inPlay (i : Nat) (src : ReadCloser)
  | unpublish (i : Nat)
  | recheck (i : Nat)
  | exitClear
  | exitDone
deriving DecidableEq

/-- A worker goroutine: the argument of `start` and the next action. -/
structure Goroutine where
  startFragment : Int
  pc : WPc
deriving DecidableEq

/-- A state of the system: the player, the control thread, the live worker
goroutines, the log, and whether the program aborted by `panic`. -/
structure Sys where
  p : Player
  ctl : Ctl
  workers : List Goroutine
  log : List Event
  panicked : Bool

/-- The outcome of an action of the control thread: the player, the next
action, the log, and the argument of `start` when a goroutine is launched. -/
structure CResult where
  p : Player
  ctl : Ctl
  log : List Event
  spawn : Option Int

/-- One action of the control thread; `none` when the thread is idle or
blocked in `p.wg.Wait()`. -/
def cstep (env : Env) (p : Player) (log : List Event) : Ctl → Option CResult
  | .idle => none
  | .stopClear k =>
    some { p := { p with playing := false }, ctl := .stopCrit k,
           log := log ++ [.playingClear], spawn := none }
  | .stopCrit k =>
    match p.trk with
    | some t =>
      some { p := { p with trk := some t.stop }, ctl := .stopWait k,
             log := log ++ [.trkStop, .setBook p.bookID p.bookName p.fragment t.getElapsedTime],
             spawn := none }
    | none =>
      some { p := p, ctl := .stopWait k,
             log := log ++ [.setBook p.bookID p.bookName p.fragment p.offset], spawn := none }
  | .stopWait k =>
    if p.wg = 0 then
      some { p := p, ctl := if k then .playAdd else .idle, log := log, spawn := none }
    else none
  | .playAdd =>
    some { p := { p with pause := false, wg := p.wg + 1 }, ctl := .playGo, log := log,
           spawn := none }
  | .playGo =>
    some { p := p, ctl := .idle, log := log ++ [.launch p.fragment], spawn := some p.fragment }
  | .setTrackCrit fragment =>
    if fragment < 0 then
      some { p := { p with fragment := 0 }, ctl := .setTrackCheck, log := log, spawn := none }
    else if fragment ≥ p.playList.length then
      some { p := p, ctl := .idle, log := log, spawn := none }
    else
      some { p := { p with fragment := fragment }, ctl := .setTrackCheck, log := log,
             spawn := none }
  | .setTrackCheck =>
    some { p := p, ctl := if p.playing then .stopClear true else .idle, log := log,
           spawn := none }
  | .changeTrackCrit offset =>
    some { p := p, ctl := .setTrackCrit (wrapInt (p.fragment + offset)), log := log,
           spawn := none }
  | .playPauseCheck =>
    some { p := p, ctl := if !p.playing then .stopClear true else .playPauseCrit, log := log,
           spawn := none }
  | .playPauseCrit =>
    match p.trk with
    | some t =>
      some { p := { p with pause := !p.pause, trk := some (t.pause (!p.pause)) }, ctl := .idle,
             log := log, spawn := none }
    | none => some { p := p, ctl := .idle, log := log, spawn := none }
  | .rewindCheck offset =>
    some { p := p, ctl := .rewindCrit offset p.playing, log := log, spawn := none }
  | .rewindCrit offset isSet =>
    if !isSet then
      some { p := { p with offset := offset }, ctl := .idle, log := log, spawn := none }
    else
      match p.trk with
      | some t =>
        some { p := { p with trk := some (t.rewind env offset).1 }, ctl := .idle,
               log := log ++ [.rewind offset (t.rewind env offset).2], spawn := none }
      | none => some { p := p, ctl := .idle, log := log, spawn := none }
  | .setSpeedCrit speed =>
    some { p := SetSpeed p speed, ctl := .idle, log := log, spawn := none }
  | .changeSpeedCrit add offset =>
    some { p := p, ctl := .setSpeedCrit (add p.speed offset), log := log, spawn := none }
  | .changeVolumeCrit offset =>
    some { p := ChangeVolume p offset, ctl := .idle, log := log, spawn := none }

/-- The outcome of an action of a worker: a `panic`; no action, because the
worker needs the lock and the control thread holds it; or the player, the log
and the goroutine, which is `none` once `start` has returned. -/
inductive WResult where
  | abort
  | blocked
  | next (p : Player) (log : List Event) (g : Option Goroutine)

/-- One action of a worker goroutine; `locked` tells whether the control
thread holds the lock of the player. -/
def wstep (env : Env) (locked : Bool) (p : Player) (log : List Event) (g : Goroutine) :
    WResult :=
  match g.pc with
  | .entry =>
    if 0 ≤ g.startFragment ∧ g.startFragment ≤ p.playList.length then
      .next { p with playing := true } (log ++ [.playingSet]) (some { g with pc := .loopHead 0 })
    else .abort
  | .loopHead i =>
    match (p.playList.drop g.startFragment.toNat).get? i with
    | none => .next p log (some { g with pc := .exitClear })
    | some r =>
      match resolve env p.bookName r with
      | .failed =>
        .next p (log ++ resolveEvents env p.bookName r) (some { g with pc := .exitClear })
      | .ok src uri =>
        match dispatch r src with
        | none => .abort
        | some mp3 =>
          .next p (log ++ resolveEvents env p.bookName r)
            (some { g with pc := .take i r src uri mp3 })
  | .take i r src uri mp3 =>
    if locked then .blocked
    else
      let speed := p.speed
      let offset := p.offset
      let p := { p with offset := 0 }
      match newTrack env mp3 speed r.Size with
      | none => .next p (log ++ [.newTrack uri false]) (some { g with pc := .loopHead (i + 1) })
      | some trk =>
        match trk.rewind env offset with
        | (_, false) =>
          .next p (log ++ [.newTrack uri true, .rewind offset false])
            (some { g with pc := .loopHead (i + 1) })
        | (trk, true) =>
          .next p (log ++ [.newTrack uri true, .rewind offset true])
            (some { g with pc := .check i src trk })
  | .check i src trk =>
    if !p.playing then .next p (log ++ [.close src]) (some { g with pc := .exitClear })
    else .next p log (some { g with pc := .publish i src trk })
  | .publish i src trk =>
    if locked then .blocked
    else
      .next { p with trk := some trk, fragment := g.startFragment + i }
        (log ++ [.publish (g.startFragment + i),
                 .setFragments (g.startFragment + i) p.playList.length,
                 .play (g.startFragment + i)])
        (some { g with pc := .inPlay i src })
  | .inPlay i src =>
    .next p (log ++ [.close src]) (some { g with pc := .unpublish i })
  | .unpublish i =>
    if locked then .blocked
    else .next { p with trk := none } log (some { g with pc := .recheck i })
  | .recheck i =>
    if !p.playing then .next p log (some { g with pc := .exitClear })
    else .next p log (some { g with pc := .loopHead (i + 1) })
  | .exitClear =>
    .next { p with playing := false } (log ++ [.playingClear]) (some { g with pc := .exitDone })
  | .exitDone =>
    .next { p with wg := p.wg - 1 } (log ++ [.done]) none

/-- Who moves: the control thread begins a call, the control thread performs
its next action, or the goroutine of index `k` performs its next action. -/
inductive Label where
  | call (c : Call)
  | control
  | worker (k : Nat)

/-- One transition of the system; `none` when the move is not possible (the
program has aborted, the control thread is busy, idle or blocked, there is no
such goroutine, the goroutine is blocked on the lock). -/
def mstep (env : Env) (s : Sys) (l : Label) : Option Sys :=
  if s.panicked then none
  else
    match l with
    | .call c => if s.ctl.isIdle then some { s with ctl := Ctl.enter c } else none
    | .control =>
      match cstep env s.p s.log s.ctl with
      | none => none
      | some res =>
        some { s with p := res.p, ctl := res.ctl, log := res.log,
                      workers := match res.spawn with
                        | some startFragment =>
                          s.workers ++ [{ startFragment := startFragment, pc := .entry }]
                        | none => s.workers }
    | .worker k =>
      match s.workers.get? k with
      | none => none
      | some g =>
        match wstep env s.ctl.holdsLock s.p s.log g with
        | .abort => some { s with panicked := true }
        | .blocked => none
        | .next p log (some g1) => some { s with p := p, log := log, workers := s.workers.set k g1 }
        | .next p log none => some { s with p := p, log := log, workers := s.workers.eraseIdx k }

/-- An execution: each transition has its own environment. -/
def mrun (s : Sys) : List (Env × Label) → Option Sys
  | [] => some s
  | (env, l) :: rest =>
    match mstep env s l with
    | none => none
    | some s1 => mrun s1 rest

/-- The system of a player that was just built. -/
def Sys.init (p : Player) : Sys :=
  { p := p, ctl := .idle, workers := [], log := [], panicked := false }

/-- The states an execution can reach from a player built by `NewPlayer`. -/
def MReachable (s : Sys) : Prop :=
  ∃ (bookID bookName : String) (rs : List Resource) (steps : List (Env × Label)),
    mrun (Sys.init (NewPlayer bookID bookName rs)) steps = some s

/-- The number of goroutines that have published their track as current and
have not yet cleared it. -/
def publishedCount (s : Sys) : Nat :=
  (s.workers.filter fun g =>
    match g.pc with
    | .inPlay _ _ => true
    | .unpublish _ => true
    | _ => false).length

/-- The action of the control thread writes the field `fragment`: it is the
critical section of `SetTrack`. -/
def Ctl.writesFragment : Ctl → Bool
  | .setTrackCrit _ => true
  | _ => false

/-- The action of the worker writes the field `fragment`: it is the
publication of lines 282 to 285. -/
def WPc.writesFragment : WPc → Bool
  | .publish _ _ _ => true
  | _ => false

/-- The move writes the field `fragment` of the player. -/
def writesFragment (s : Sys) : Label → Bool
  | .call _ => false
  | .control => s.ctl.writesFragment
  | .worker k =>
    match s.workers.get? k with
    | some g => g.pc.writesFragment
    | none => false

/-- No move of the execution writes the field `fragment` of the player. -/
def keepsFragment (s : Sys) : List (Env × Label) → Bool
  | [] => true
  | (env, l) :: rest =>
    !writesFragment s l &&
      match mstep env s l with
      | some s1 => keepsFragment s1 rest
      | none => true

/-! ## The predicates of the statements -/

/-- The test the worker makes on the cache path of a resource: `os.Stat`
succeeds, the entry is not a directory, its size is the declared size. -/
def cacheHit (env : Env) (path : String) (r : Resource) : Prop :=
  ∃ info, env.stat path = some info ∧ info.kind ≠ .dir ∧ info.size = r.Size

/-- The worlds a player can be in: built by `NewPlayer` from some resource
list, then driven by some sequence of steps. -/
def Reachable (w : World) : Prop :=
  ∃ (bookID bookName : String) (rs : List Resource) (steps : List (Env × Op)),
    w = run (World.init (NewPlayer bookID bookName rs)) steps

/-- The player and its worker agree: without worker, or with a worker that has
not begun, the flag is clear and no track is published; a worker blocked in
`trk.play()` has set the flag and published its track, and the resources it
still has to play are the end of the playlist. -/
def workerOk (w : World) : Prop :=
  match w.worker with
  | none => w.p.wg = 0 ∧ w.p.playing = false ∧ w.p.trk = none
  | some (.launched sf) =>
    w.p.wg = 1 ∧ w.p.playing = false ∧ w.p.trk = none ∧ 0 ≤ sf ∧ sf ≤ w.p.playList.length
  | some (.inPlay sf i _ rest) =>
    w.p.wg = 1 ∧ w.p.playing = true ∧ w.p.trk.isSome = true ∧ 0 ≤ sf ∧
    (∀ r ∈ rest, supported r = true) ∧
    sf + i + 1 + rest.length = w.p.playList.length

/-- The invariant of the player. -/
structure Inv (w : World) : Prop where
  alive : w.panicked = false
  supp : ∀ r ∈ w.p.playList, supported r = true
  fragLo : 0 ≤ w.p.fragment
  fragHi : w.p.fragment ≤ w.p.playList.length
  worker : workerOk w

/-- The state of the player seen by its worker between two tracks: the
program is alive, the playlist is supported, the fragment is in bounds, the
worker is the one counted goroutine and no track is published. -/
structure Ready (w : World) : Prop where
  alive : w.panicked = false
  supp : ∀ r ∈ w.p.playList, supported r = true
  fragLo : 0 ≤ w.p.fragment
  fragHi : w.p.fragment ≤ w.p.playList.length
  wg1 : w.p.wg = 1
  noTrk : w.p.trk = none

/-- What `SetSpeed` and `ChangeVolume` leave alone: everything but the speed
and the content of the active track. -/
def Frame (p q : Player) : Prop :=
  q.playList = p.playList ∧ q.fragment = p.fragment ∧ q.wg = p.wg ∧ q.playing = p.playing ∧
  q.trk.isSome = p.trk.isSome

/-- The offsets the tracks of a log were sought to, in order: the arguments of
the `rewind` calls. -/
def tracksSought (log : List Event) : List Int :=
  log.filterMap fun e =>
    match e with
    | .rewind offset _ => some offset
    | _ => none

/-- The world at the end of an iteration. -/
def Iter.world : Iter → World
  | .brk w => w
  | .cont w => w
  | .play w _ => w
  | .abort w => w

/-- The invariant of the interleaving: the counter of the wait group is the
number of live goroutines plus the one the control thread has counted and is
about to launch, the counter is at most one, and no goroutine is live when
the control thread is about to count a new one. -/
structure Joined (s : Sys) : Prop where
  counted : s.p.wg = s.workers.length + s.ctl.launching
  atMostOne : s.p.wg ≤ 1
  noneAtLaunch : s.ctl = .playAdd → s.workers = []

/-! ## Example data -/

/-- A player with an active track of the given gains. -/
def withGains (l r : Nat) : Player :=
  { NewPlayer "book" "name" [] with
    trk := some { speed := DEFAULT_SPEED, volL := l, volR := r, paused := false,
                  stopped := false, elapsed := 0, sought := 0 } }

/-- The gains of the active track. -/
def gains (p : Player) : Option (Nat × Nat) := p.trk.map fun t => (t.volL, t.volR)

/-- An environment in which every cache path is a named pipe of 10 bytes that
opens, every connection succeeds, every stream decodes and every seek works. -/
def envPipe : Env :=
  { cachePath := fun bookName localURI => bookName ++ "/" ++ localURI
    stat := fun _ => some { kind := .other, size := 10 }
    openFile := fun _ => some 3
    connect := fun _ => some 7
    decodes := fun _ => true
    gain := (32768, 32768)
    seeks := fun _ _ => true }

/-- A supported resource of 10 bytes. -/
def res10 : Resource := { MimeType := "audio/mpeg", URI := "http://host/1.mp3",
                          LocalURI := "1.mp3", Size := 10 }

/-- The first resource of the example book. -/
def res1 : Resource := { MimeType := "audio/mpeg", URI := "u1", LocalURI := "1.mp3", Size := 10 }

/-- The second resource of the example book. -/
def res2 : Resource := { MimeType := "audio/x-lkf", URI := "u2", LocalURI := "2.lkf", Size := 20 }

/-- The third resource of the example book. -/
def res3 : Resource := { MimeType := "audio/mpeg", URI := "u3", LocalURI := "3.mp3", Size := 30 }

/-- An environment without cached files, in which the connection to "u2"
fails, every stream decodes and every seek works. -/
def envNet : Env :=
  { cachePath := fun bookName localURI => bookName ++ "/" ++ localURI
    stat := fun _ => none
    openFile := fun _ => none
    connect := fun uri => if uri == "u2" then none else some 1
    decodes := fun _ => true
    gain := (32768, 32768)
    seeks := fun _ _ => true }

/-- An environment without cached files, in which every connection succeeds,
the stream of an MP3 resource does not decode, the stream of an LKF resource
does, and every seek works. -/
def envLkfOnly : Env :=
  { cachePath := fun bookName localURI => bookName ++ "/" ++ localURI
    stat := fun _ => none
    openFile := fun _ => none
    connect := fun _ => some 1
    decodes := fun mp3 => match mp3 with
      | .lkf _ => true
      | .plain _ => false
    gain := (32768, 32768)
    seeks := fun _ _ => true }

/-- The example book, just opened. -/
def book3 : World := World.init (NewPlayer "id" "name" [res1, res2, res3])

/-- The example book while its first resource plays. -/
def book3Playing : World := run book3 [(envNet, .Play), (envNet, .workerRun)]

/-- The session of claim C6: the book is played from its first resource, the
track of that resource plays for `d` nanoseconds up to the end of its stream,
then `Stop` is called. -/
def sessionThenStop (env : Env) (d : Nat) : List (Env × Op) :=
  [(env, .Play), (env, .workerRun), (env, .tick d), (env, .trackEnd), (env, .Stop)]

/-- Two calls of `Play` in quick succession on the example book: the second
call clears the flag and writes its bookmark before the worker of the first
call has begun, waits while that worker plays the first resource and fails on
the second, and launches its own worker only then. -/
def twoPlays : List (Env × Label) :=
  [(envNet, .call .Play), (envNet, .control), (envNet, .control), (envNet, .control),
   (envNet, .control), (envNet, .control),
   (envNet, .call .Play), (envNet, .control), (envNet, .control),
   (envNet, .worker 0), (envNet, .worker 0), (envNet, .worker 0), (envNet, .worker 0),
   (envNet, .worker 0), (envNet, .worker 0), (envNet, .worker 0), (envNet, .worker 0),
   (envNet, .worker 0), (envNet, .worker 0), (envNet, .worker 0),
   (envNet, .control), (envNet, .control), (envNet, .control)]

/-- The state after the two calls of `Play`. -/
def afterTwoPlays : Sys :=
  (mrun (Sys.init (NewPlayer "id" "name" [res1, res2, res3])) twoPlays).getD
    (Sys.init (NewPlayer "id" "name" [res1, res2, res3]))

/-- `Play` returns, then `Stop` clears the flag and writes the bookmark before
the worker has executed its first statement; the worker then sets the flag,
resolves the first resource, finds the flag set at line 276 and publishes. -/
def stopBeforeEntry : List (Env × Label) :=
  [(envNet, .call .Play), (envNet, .control), (envNet, .control), (envNet, .control),
   (envNet, .control), (envNet, .control),
   (envNet, .call .Stop), (envNet, .control), (envNet, .control),
   (envNet, .worker 0), (envNet, .worker 0), (envNet, .worker 0), (envNet, .worker 0),
   (envNet, .worker 0)]

/-- `Play` returns and the worker runs up to the test of the flag of line 276,
which it finds set; then `Stop` clears the flag and writes the bookmark; then
the worker enters the critical section of line 282 and publishes. -/
def stopBetweenCheckAndPublish : List (Env × Label) :=
  [(envNet, .call .Play), (envNet, .control), (envNet, .control), (envNet, .control),
   (envNet, .control), (envNet, .control),
   (envNet, .worker 0), (envNet, .worker 0), (envNet, .worker 0), (envNet, .worker 0),
   (envNet, .call .Stop), (envNet, .control), (envNet, .control),
   (envNet, .worker 0)]

/-- What an execution of the example book leaves behind: the log, the flag,
whether a track is published, and the next action of every live goroutine. -/
def outcome (steps : List (Env × Label)) : Option (List Event × Bool × Bool × List WPc) :=
  (mrun (Sys.init (NewPlayer "id" "name" [res1, res2, res3])) steps).map fun s =>
    (s.log, s.p.playing, s.p.trk.isSome, s.workers.map fun g => g.pc)

/-- An environment without cached files, in which every connection succeeds,
every stream decodes and every seek works. -/
def envAll : Env :=
  { cachePath := fun bookName localURI => bookName ++ "/" ++ localURI
    stat := fun _ => none
    openFile := fun _ => none
    connect := fun _ => some 1
    decodes := fun _ => true
    gain := (32768, 32768)
    seeks := fun _ _ => true }

/-- `Play` returns and the worker runs up to `trk.play()` of the first
resource. -/
def playFirst : List (Env × Label) :=
  [(envAll, .call .Play), (envAll, .control), (envAll, .control), (envAll, .control),
   (envAll, .control), (envAll, .control),
   (envAll, .worker 0), (envAll, .worker 0), (envAll, .worker 0), (envAll, .worker 0),
   (envAll, .worker 0)]

/-- The example book while its first resource plays, in the interleaving
model. -/
def sysPlaying : Sys :=
  (mrun (Sys.init (NewPlayer "id" "name" [res1, res2, res3])) playFirst).getD
    (Sys.init (NewPlayer "id" "name" [res1, res2, res3]))

/-- The rest of a call of `SetTrack` on `sysPlaying` after its critical
section, when the worker publishes nothing meanwhile: the flag is found set,
`Play` stops the worker, waits for it and launches a new one. -/
def restartUndisturbed : List (Env × Label) :=
  [(envAll, .control), (envAll, .control), (envAll, .control),
   (envAll, .worker 0), (envAll, .worker 0), (envAll, .worker 0), (envAll, .worker 0),
   (envAll, .worker 0),
   (envAll, .control), (envAll, .control), (envAll, .control)]

/-- `Play` returns and the worker passes the test of the flag of line 276;
`SetTrack(2)` runs its critical section; the worker publishes the first
resource; `SetTrack` goes on with the test of the flag and with `Play`. -/
def setTrackBeforePublish : List (Env × Label) :=
  [(envAll, .call .Play), (envAll, .control), (envAll, .control), (envAll, .control),
   (envAll, .control), (envAll, .control),
   (envAll, .worker 0), (envAll, .worker 0), (envAll, .worker 0), (envAll, .worker 0),
   (envAll, .call (.SetTrack 2)), (envAll, .control),
   (envAll, .worker 0),
   (envAll, .control), (envAll, .control), (envAll, .control),
   (envAll, .worker 0), (envAll, .worker 0), (envAll, .worker 0), (envAll, .worker 0),
   (envAll, .worker 0),
   (envAll, .control), (envAll, .control), (envAll, .control)]

/-- The first resource plays; `SetTrack(2)` runs its critical section; the
stream of the first resource ends and the worker publishes the second
resource; `SetTrack` goes on with the test of the flag and with `Play`. -/
def setTrackBeforeTrackEnd : List (Env × Label) :=
  playFirst ++
  [(envAll, .call (.SetTrack 2)), (envAll, .control),
   (envAll, .worker 0), (envAll, .worker 0), (envAll, .worker 0), (envAll, .worker 0),
   (envAll, .worker 0), (envAll, .worker 0), (envAll, .worker 0),
   (envAll, .control), (envAll, .control), (envAll, .control),
   (envAll, .worker 0), (envAll, .worker 0), (envAll, .worker 0), (envAll, .worker 0),
   (envAll, .worker 0),
   (envAll, .control), (envAll, .control), (envAll, .control)]

/-- What an execution of the example book leaves behind for the navigation:
the length of the playlist, the stored fragment, whether the control thread
has returned from its call, and the live goroutines. -/
def navigation (steps : List (Env × Label)) : Option (Nat × Int × Bool × List Goroutine) :=
  (mrun (Sys.init (NewPlayer "id" "name" [res1, res2, res3])) steps).map fun s =>
    (s.p.playList.length, s.p.fragment, s.ctl.isIdle, s.workers)

/-! # Properties -/

/-! ## Playlist construction -/

/-- The loop of `NewPlayer` appends the supported resources, in order, to the
playlist it starts from and touches no other field. -/
theorem NewPlayer_foldl (rs : List Resource) (p : Player) :
    rs.foldl
      (fun p r =>
        if r.MimeType == LKF_FORMAT || r.MimeType == MP3_FORMAT then
          { p with playList := p.playList ++ [r] }
        else p) p
    = { p with playList := p.playList ++ rs.filter supported } := by
  induction rs generalizing p with
  | nil => simp
  | cons r rs ih =>
    simp only [List.foldl_cons, ih, List.filter_cons]
    by_cases h : (r.MimeType == LKF_FORMAT || r.MimeType == MP3_FORMAT) = true
    · have hs : supported r = true := by
        simpa [supported, LKF_FORMAT, MP3_FORMAT, Bool.or_comm] using h
      simp [h, hs]
    · have hs : supported r = false := by
        simpa [supported, LKF_FORMAT, MP3_FORMAT, Bool.or_comm] using h
      simp [h, hs]

/-- Claim C4: the playlist of `NewPlayer(id, name, rs)` is exactly the sublist
of `rs` of the resources whose MimeType is "audio/mpeg" or "audio/x-lkf", in
the original order, and the new player starts with fragment 0, pending offset
0, speed 1.0, not paused and without an active track. -/
theorem NewPlayer_playList (bookID bookName : String) (rs : List Resource) :
    (NewPlayer bookID bookName rs).playList = rs.filter supported ∧
    (NewPlayer bookID bookName rs).playList.Sublist rs ∧
    (NewPlayer bookID bookName rs).fragment = 0 ∧
    (NewPlayer bookID bookName rs).offset = 0 ∧
    (NewPlayer bookID bookName rs).speed = .fin 1 ∧
    (NewPlayer bookID bookName rs).pause = false ∧
    (NewPlayer bookID bookName rs).trk = none := by
  unfold NewPlayer
  simp only [NewPlayer_foldl]
  simp [DEFAULT_SPEED]

/-! ## Speed -/

/-- Claim C2, as amended: for every speed `v` that is a number, the speed
stored by `SetSpeed(v)` lies in [0.5, 3.0]; it is 0.5 when `v < 0.5`, 3.0 when
`v > 3.0` and `v` otherwise; an active track receives exactly the stored
value; and `ChangeSpeed(d)` from the stored speed `s` is `SetSpeed(s + d)`. -/
theorem SetSpeed_clamped (add : Float64 → Float64 → Float64) (p : Player) (v d : Float64)
    (hv : v ≠ .nan) :
    speedInRange (SetSpeed p v).speed ∧
    (v.lt MIN_SPEED = true → (SetSpeed p v).speed = .fin (1 / 2)) ∧
    (MAX_SPEED.lt v = true → (SetSpeed p v).speed = .fin 3) ∧
    (v.lt MIN_SPEED = false → MAX_SPEED.lt v = false → (SetSpeed p v).speed = v) ∧
    (∀ t, p.trk = some t →
      (SetSpeed p v).trk = some { t with speed := (SetSpeed p v).speed }) ∧
    ChangeSpeed add p d = SetSpeed p (add p.speed d) := by
  have hspeed : (SetSpeed p v).speed =
      if v.lt MIN_SPEED then MIN_SPEED else if MAX_SPEED.lt v then MAX_SPEED else v := by
    unfold SetSpeed
    cases p.trk <;> (simp only []; split_ifs <;> rfl)
  refine ⟨?_, ?_, ?_, ?_, ?_, rfl⟩
  · rw [hspeed]
    cases v with
    | nan => exact absurd rfl hv
    | negInf => norm_num [speedInRange, Float64.lt, Float64.le, MIN_SPEED, MAX_SPEED]
    | posInf => norm_num [speedInRange, Float64.lt, Float64.le, MIN_SPEED, MAX_SPEED]
    | fin q =>
      by_cases h1 : q < 1 / 2
      · have : (Float64.fin q).lt MIN_SPEED = true := by
          simp only [Float64.lt, MIN_SPEED, decide_eq_true_eq]; exact h1
        rw [if_pos this]
        norm_num [speedInRange, Float64.le, MIN_SPEED, MAX_SPEED]
      · have h1f : (Float64.fin q).lt MIN_SPEED = false := by
          simp only [Float64.lt, MIN_SPEED, decide_eq_false_iff_not]; exact h1
        by_cases h2 : (3 : ℚ) < q
        · have : MAX_SPEED.lt (Float64.fin q) = true := by
            simp only [Float64.lt, MAX_SPEED, decide_eq_true_eq]; exact h2
          simp only [h1f, this, if_true]
          norm_num [speedInRange, Float64.le, MIN_SPEED, MAX_SPEED]
        · have h2f : MAX_SPEED.lt (Float64.fin q) = false := by
            simp only [Float64.lt, MAX_SPEED, decide_eq_false_iff_not]; exact h2
          rw [h1f, h2f]
          simp only [Bool.false_eq_true, if_false]
          simp only [speedInRange, Float64.le, MIN_SPEED, MAX_SPEED, decide_eq_true_eq]
          exact ⟨not_lt.mp h1, not_lt.mp h2⟩
  · intro h; rw [hspeed, if_pos h]; rfl
  · intro h
    have h1 : v.lt MIN_SPEED = false := by
      cases v with
      | nan => rfl
      | negInf => simp [Float64.lt, MAX_SPEED] at h
      | posInf => rfl
      | fin q =>
        simp only [Float64.lt, MAX_SPEED, decide_eq_true_eq] at h
        simp only [Float64.lt, MIN_SPEED, decide_eq_false_iff_not, not_lt]
        linarith
    rw [hspeed]; simp [h1, h]; rfl
  · intro h1 h2; rw [hspeed]; simp [h1, h2]
  · intro t ht
    unfold SetSpeed
    simp only [ht]
    split_ifs <;> rfl

/-- The amended claim C2 at the speed 5.0 of a stopped player. -/
theorem SetSpeed_clamped_witness :
    speedInRange (SetSpeed (NewPlayer "b" "n" []) (.fin 5)).speed ∧
    (SetSpeed (NewPlayer "b" "n" []) (.fin 5)).speed = .fin 3 :=
  have h := SetSpeed_clamped (fun a _ => a) (NewPlayer "b" "n" []) (.fin 5) (.fin 0)
    (by simp)
  ⟨h.1, h.2.2.1 (by norm_num [Float64.lt, MAX_SPEED])⟩

/-- Claim C2 fails for the speed NaN: both comparisons of `SetSpeed` are false,
the default branch stores NaN, which is outside [0.5, 3.0]. -/
theorem SetSpeed_nan_counterexample :
    (SetSpeed (NewPlayer "b" "n" []) .nan).speed = .nan ∧
    ¬ speedInRange (SetSpeed (NewPlayer "b" "n" []) .nan).speed := by
  simp [SetSpeed, NewPlayer, speedInRange, Float64.lt, Float64.le, MIN_SPEED, MAX_SPEED]

/-! ## Volume -/

/-- Within the range of a Go `int` the wrap is the identity. -/
theorem wrapInt_eq_self (x : Int) (h1 : -2 ^ 63 ≤ x) (h2 : x < 2 ^ 63) : wrapInt x = x := by
  unfold wrapInt
  norm_num at h1 h2 ⊢
  omega

/-- Claim C3, as amended: with no active track `ChangeVolume` changes nothing;
with an active track of gains `(l, r)`, each in [0, 65535], and an offset for
which `offset * 4096`, `l + offset * 4096` and `r + offset * 4096` are Go
`int` values, it writes back exactly the two sums, each clamped on its own to
[0, 65535], and changes nothing else. -/
theorem ChangeVolume_clamped (p : Player) (offset : Int) :
    (p.trk = none → ChangeVolume p offset = p) ∧
    (∀ t, p.trk = some t → t.volL ≤ 65535 → t.volR ≤ 65535 →
      -2 ^ 63 ≤ offset * 4096 →
      (t.volL : Int) + offset * 4096 < 2 ^ 63 → (t.volR : Int) + offset * 4096 < 2 ^ 63 →
      ChangeVolume p offset =
        { p with trk := some { t with
            volL := (clamp (t.volL + offset * 4096) 0 65535).toNat,
            volR := (clamp (t.volR + offset * 4096) 0 65535).toNat } }) := by
  constructor
  · intro h; simp [ChangeVolume, h]
  · intro t ht hl hr hlo hhiL hhiR
    have hl' : (t.volL : Int) ≤ 65535 := by exact_mod_cast hl
    have hr' : (t.volR : Int) ≤ 65535 := by exact_mod_cast hr
    have hl0 : (0 : Int) ≤ t.volL := Int.natCast_nonneg _
    have hr0 : (0 : Int) ≤ t.volR := Int.natCast_nonneg _
    have hoff : wrapInt (offset * 4096) = offset * 4096 :=
      wrapInt_eq_self _ hlo (by linarith)
    have hL : wrapInt ((t.volL : Int) + offset * 4096) = t.volL + offset * 4096 :=
      wrapInt_eq_self _ (by linarith) hhiL
    have hR : wrapInt ((t.volR : Int) + offset * 4096) = t.volR + offset * 4096 :=
      wrapInt_eq_self _ (by linarith) hhiR
    have hmod : ∀ x : Int,
        ((if (if x < 0 then 0 else x) > 0xffff then 0xffff else (if x < 0 then 0 else x))
          % 65536).toNat = (clamp x 0 65535).toNat := by
      intro x
      unfold clamp
      congr 1
      split_ifs <;> omega
    simp only [ChangeVolume, ht, hoff, hL, hR, hmod]

/-- The amended claim C3 on the examples of the specification: from the gains
(60000, 60000), `ChangeVolume(+2)` gives (65535, 65535) and `ChangeVolume(-20)`
gives (0, 0). -/
theorem ChangeVolume_clamped_witness :
    gains (ChangeVolume (withGains 60000 60000) 2) = some (65535, 65535) ∧
    gains (ChangeVolume (withGains 60000 60000) (-20)) = some (0, 0) := by
  have h := (ChangeVolume_clamped (withGains 60000 60000) 2).2 _ rfl
    (by decide) (by decide) (by decide) (by decide) (by decide)
  have h' := (ChangeVolume_clamped (withGains 60000 60000) (-20)).2 _ rfl
    (by decide) (by decide) (by decide) (by decide) (by decide)
  rw [h, h']
  decide

/-- Claim C3 fails for the offset 2^52: the Go product `offset * 4096` wraps to
0, so the gains stay (60000, 60000), while the sum with the mathematical
product clamps to 65535. -/
theorem ChangeVolume_overflow_counterexample :
    gains (ChangeVolume (withGains 60000 60000) (2 ^ 52)) = some (60000, 60000) ∧
    clamp (60000 + 2 ^ 52 * 4096) 0 65535 = 65535 := by
  decide

/-! ## Resource resolution -/

/-- The local source is taken exactly on a cache hit. -/
theorem localSource_eq (env : Env) (path : String) (r : Resource) :
    (cacheHit env path r → localSource env path r = .file (env.openFile path)) ∧
    (¬ cacheHit env path r → localSource env path r = .nil) := by
  unfold cacheHit localSource
  cases hst : env.stat path with
  | none => simp
  | some info =>
    by_cases hk : info.kind = .dir
    · simp [FileInfo.IsDir, hk]
    · by_cases hs : info.size = r.Size
      · simp [FileInfo.IsDir, FileInfo.Size, hk, hs]
      · simp [FileInfo.IsDir, FileInfo.Size, hk, hs]

/-- Claim C5, as amended: for every resource and every outcome of the probe of
its cache path, the resolution step takes the local file (the `*os.File` that
`os.Open` returned) as the source, without opening a connection, if and only
if the path exists, is not a directory and has exactly the declared size; in
every other case it opens the network stream from the URI of the resource. -/
theorem resolve_local_iff_cacheHit (env : Env) (bookName : String) (r : Resource) :
    ((∃ f, resolve env bookName r = .ok (.file f) (env.cachePath bookName r.LocalURI)) ↔
      cacheHit env (env.cachePath bookName r.LocalURI) r) ∧
    (cacheHit env (env.cachePath bookName r.LocalURI) r →
      resolve env bookName r =
        .ok (.file (env.openFile (env.cachePath bookName r.LocalURI)))
          (env.cachePath bookName r.LocalURI) ∧
      resolveEvents env bookName r = [.openFile (env.cachePath bookName r.LocalURI)]) ∧
    (¬ cacheHit env (env.cachePath bookName r.LocalURI) r →
      resolve env bookName r =
        (match env.connect r.URI with
         | none => .failed
         | some c => .ok (.conn c) r.URI) ∧
      resolveEvents env bookName r = [.connect r.URI]) := by
  have hloc := localSource_eq env (env.cachePath bookName r.LocalURI) r
  have hyes : cacheHit env (env.cachePath bookName r.LocalURI) r →
      resolve env bookName r =
        .ok (.file (env.openFile (env.cachePath bookName r.LocalURI)))
          (env.cachePath bookName r.LocalURI) ∧
      resolveEvents env bookName r = [.openFile (env.cachePath bookName r.LocalURI)] := by
    intro h
    simp [resolve, resolveEvents, hloc.1 h]
  have hno : ¬ cacheHit env (env.cachePath bookName r.LocalURI) r →
      resolve env bookName r =
        (match env.connect r.URI with
         | none => .failed
         | some c => .ok (.conn c) r.URI) ∧
      resolveEvents env bookName r = [.connect r.URI] := by
    intro h
    simp only [resolve, resolveEvents, hloc.2 h]
    cases env.connect r.URI <;> simp
  refine ⟨⟨?_, fun h => ⟨_, (hyes h).1⟩⟩, hyes, hno⟩
  rintro ⟨f, hf⟩
  by_contra h
  rw [(hno h).1] at hf
  cases hc : env.connect r.URI <;> simp [hc] at hf

/-- The amended claim C5 on a cache path that is a named pipe of the declared
size: the local file is the source. -/
theorem resolve_local_iff_cacheHit_witness :
    resolve envPipe "book" res10 = .ok (.file (some 3)) "book/1.mp3" ∧
    resolveEvents envPipe "book" res10 = [.openFile "book/1.mp3"] :=
  (resolve_local_iff_cacheHit envPipe "book" res10).2.1
    ⟨{ kind := .other, size := 10 }, rfl, by decide, rfl⟩

/-- Claim C5 fails on a cache path that exists, has exactly the declared size
and is not a regular file (a named pipe): the worker takes the local file as
the source and opens no connection. -/
theorem resolve_not_regular_counterexample :
    envPipe.stat "book/1.mp3" = some { kind := .other, size := 10 } ∧
    res10.Size = 10 ∧
    resolve envPipe "book" res10 = .ok (.file (some 3)) "book/1.mp3" ∧
    Event.connect res10.URI ∉ resolveEvents envPipe "book" res10 := by
  decide

/-! ## The invariant of a running player -/

theorem dispatch_supported (r : Resource) (src : ReadCloser) (hr : supported r = true) :
    ∃ mp3, dispatch r src = some mp3 := by
  unfold dispatch
  simp only [supported, Bool.or_eq_true] at hr
  rcases hr with h | h
  · by_cases h1 : (r.MimeType == LKF_FORMAT) = true
    · exact ⟨_, by rw [if_pos h1]⟩
    · exact ⟨.plain src, by rw [if_neg h1, if_pos (by simpa [MP3_FORMAT] using h)]⟩
  · exact ⟨.lkf src, by rw [if_pos (by simpa [LKF_FORMAT] using h)]⟩

/-- What one iteration of the worker does to the world, for a supported
resource: it never aborts; a `break` or a `continue` changes at most the
pending offset; the iteration reaches `trk.play()` only with the flag set,
having published a track and the fragment `startFragment + i`. -/
theorem iteration_spec (env : Env) (w : World) (sf : Int) (i : Nat) (r : Resource)
    (hr : supported r = true) :
    match iteration env w sf i r with
    | .brk w1 => w1.panicked = w.panicked ∧ w1.worker = w.worker ∧
        ∃ o, w1.p = { w.p with offset := o }
    | .cont w1 => w1.panicked = w.panicked ∧ w1.worker = w.worker ∧
        w1.p = { w.p with offset := 0 }
    | .abort _ => False
    | .play w1 _ => w.p.playing = true ∧ w1.panicked = w.panicked ∧ w1.worker = w.worker ∧
        ∃ t, w1.p = { w.p with offset := 0, trk := some t, fragment := sf + i } := by
  unfold iteration
  simp only [World.emit]
  cases hres : resolve env w.p.bookName r with
  | failed => exact ⟨rfl, rfl, w.p.offset, rfl⟩
  | ok src uri =>
    obtain ⟨mp3, hd⟩ := dispatch_supported r src hr
    simp only [hd]
    cases hnt : newTrack env mp3 w.p.speed r.Size with
    | none => exact ⟨rfl, rfl, rfl⟩
    | some trk =>
      simp only []
      rcases hrw : trk.rewind env w.p.offset with ⟨t1, b⟩
      cases b with
      | false => exact ⟨rfl, rfl, rfl⟩
      | true =>
        simp only []
        by_cases hp : w.p.playing = true
        · rw [if_neg (by simp [hp])]
          exact ⟨hp, rfl, rfl, t1, rfl⟩
        · rw [if_pos (by simpa using hp)]
          exact ⟨rfl, rfl, 0, rfl⟩

theorem Ready.of_offset {w w1 : World} (h : Ready w) (ha : w1.panicked = w.panicked)
    (o : Int) (hp : w1.p = { w.p with offset := o }) : Ready w1 := by
  refine ⟨ha.trans h.alive, ?_, ?_, ?_, ?_, ?_⟩
  · rw [hp]; exact h.supp
  · rw [hp]; exact h.fragLo
  · rw [hp]; exact h.fragHi
  · rw [hp]; exact h.wg1
  · rw [hp]; exact h.noTrk

theorem workerExit_inv {w : World} (h : Ready w) :
    Inv (workerExit w) ∧ (workerExit w).worker = none :=
  ⟨⟨h.alive, h.supp, h.fragLo, h.fragHi, by simp [workerOk, workerExit, h.wg1, h.noTrk]⟩, rfl⟩

/-- The range loop of the worker, entered between two tracks, keeps the
invariant; when every track is played through the worker is gone at the end. -/
theorem loop_inv (env : Env) (through : Bool) (sf : Int) (rest : List Resource) :
    ∀ (i : Nat) (w : World), Ready w → 0 ≤ sf → (∀ r ∈ rest, supported r = true) →
      sf + i + rest.length = w.p.playList.length →
      Inv (loop env through sf rest i w) ∧
      (through = true → (loop env through sf rest i w).worker = none) := by
  induction rest with
  | nil =>
    intro i w h _ _ _
    simp only [loop]
    exact ⟨(workerExit_inv h).1, fun _ => rfl⟩
  | cons r rest ih =>
    intro i w h hsf hsupp hlen
    have hit := iteration_spec env w sf i r (hsupp r (List.mem_cons_self _ _))
    have hrest : ∀ r ∈ rest, supported r = true :=
      fun x hx => hsupp x (List.mem_cons_of_mem _ hx)
    simp only [List.length_cons, Nat.cast_add, Nat.cast_one] at hlen
    simp only [loop]
    cases hiter : iteration env w sf i r with
    | brk w1 =>
      rw [hiter] at hit
      obtain ⟨ha, _, o, hp⟩ := hit
      exact ⟨(workerExit_inv (h.of_offset ha o hp)).1, fun _ => rfl⟩
    | cont w1 =>
      rw [hiter] at hit
      obtain ⟨ha, _, hp⟩ := hit
      refine ih (i + 1) w1 (h.of_offset ha 0 hp) hsf hrest ?_
      rw [hp]; push_cast; omega
    | abort w1 => rw [hiter] at hit; exact hit.elim
    | play w1 src =>
      rw [hiter] at hit
      obtain ⟨hplay, ha, hwk, t, hp⟩ := hit
      have hready : Ready (afterPlay w1 sf i src) := by
        refine ⟨ha.trans h.alive, ?_, ?_, ?_, ?_, rfl⟩
        · simp only [afterPlay, hp]; exact h.supp
        · simp only [afterPlay, hp]; omega
        · simp only [afterPlay, hp]; omega
        · simp only [afterPlay, hp]; exact h.wg1
      have hlen1 : sf + ((i + 1 : Nat) : Int) + rest.length
          = (afterPlay w1 sf i src).p.playList.length := by
        simp only [afterPlay, hp]; push_cast; omega
      cases through with
      | true =>
        simp only [if_true]
        by_cases hpl : (afterPlay w1 sf i src).p.playing = true
        · rw [if_neg (by simp [hpl])]
          have h2 := ih (i + 1) _ hready hsf hrest hlen1
          exact ⟨h2.1, fun _ => h2.2 rfl⟩
        · rw [if_pos (by simpa using hpl)]
          exact ⟨(workerExit_inv hready).1, fun _ => rfl⟩
      | false =>
        simp only [Bool.false_eq_true, if_false]
        refine ⟨⟨ha.trans h.alive, ?_, ?_, ?_, ?_⟩, fun hf => by cases hf⟩
        · simp only [hp]; exact h.supp
        · simp only [hp]; omega
        · simp only [hp]; omega
        · simp only [workerOk, hp, hplay, Option.isSome_some, true_and]
          exact ⟨h.wg1, hsf, hrest, by omega⟩

/-- The body of the worker, started in bounds by the one counted goroutine
while no track is published, keeps the invariant. -/
theorem start_inv (env : Env) (through : Bool) (w : World) (sf : Int)
    (ha : w.panicked = false) (hs : ∀ r ∈ w.p.playList, supported r = true)
    (hlo : 0 ≤ w.p.fragment) (hhi : w.p.fragment ≤ w.p.playList.length)
    (hwg : w.p.wg = 1) (htrk : w.p.trk = none)
    (hsf : 0 ≤ sf) (hsf2 : sf ≤ w.p.playList.length) :
    Inv (start env through w sf) ∧ (through = true → (start env through w sf).worker = none) := by
  unfold start
  simp only []
  rw [if_pos ⟨hsf, hsf2⟩]
  refine loop_inv env through sf _ 0 _ ⟨ha, hs, hlo, hhi, hwg, htrk⟩ hsf ?_ ?_
  · intro r hr
    exact hs r (List.mem_of_mem_drop hr)
  · simp only [List.length_drop, Nat.cast_zero, add_zero]
    have h1 : sf.toNat ≤ w.p.playList.length := by omega
    rw [Nat.cast_sub h1, Int.toNat_of_nonneg hsf]
    ring

/-- The worker resumed after the return of `trk.play()` keeps the invariant. -/
theorem resume_inv (env : Env) (through : Bool) (w : World) (sf : Int) (i : Nat)
    (src : ReadCloser) (rest : List Resource)
    (ha : w.panicked = false) (hs : ∀ r ∈ w.p.playList, supported r = true)
    (hlo : 0 ≤ w.p.fragment) (hhi : w.p.fragment ≤ w.p.playList.length)
    (hwg : w.p.wg = 1) (hsf : 0 ≤ sf) (hrest : ∀ r ∈ rest, supported r = true)
    (hlen : sf + i + 1 + rest.length = w.p.playList.length) :
    Inv (resume env through w sf i src rest) ∧
    (through = true → (resume env through w sf i src rest).worker = none) := by
  have hready : Ready (afterPlay w sf i src) := ⟨ha, hs, hlo, hhi, hwg, rfl⟩
  unfold resume
  simp only []
  by_cases hpl : (afterPlay w sf i src).p.playing = true
  · rw [if_neg (by simp [hpl])]
    refine loop_inv env through sf rest (i + 1) _ hready hsf hrest ?_
    simp only [afterPlay]; push_cast; omega
  · rw [if_pos (by simpa using hpl)]
    exact ⟨(workerExit_inv hready).1, fun _ => rfl⟩

/-- The wait of `Stop` for the worker, entered with the flag cleared, keeps
the invariant and leaves no worker behind. -/
theorem join_inv (env : Env) (w : World)
    (ha : w.panicked = false) (hs : ∀ r ∈ w.p.playList, supported r = true)
    (hlo : 0 ≤ w.p.fragment) (hhi : w.p.fragment ≤ w.p.playList.length)
    (hpl : w.p.playing = false)
    (hwk : match w.worker with
      | none => w.p.wg = 0 ∧ w.p.trk = none
      | some (.launched sf) =>
        w.p.wg = 1 ∧ w.p.trk = none ∧ 0 ≤ sf ∧ sf ≤ w.p.playList.length
      | some (.inPlay sf i _ rest) =>
        w.p.wg = 1 ∧ 0 ≤ sf ∧ (∀ r ∈ rest, supported r = true) ∧
        sf + i + 1 + rest.length = w.p.playList.length) :
    Inv (join env w) ∧ (join env w).worker = none := by
  unfold join
  cases hw : w.worker with
  | none =>
    simp only [hw] at hwk
    exact ⟨⟨ha, hs, hlo, hhi, by simp [workerOk, hw, hwk.1, hwk.2, hpl]⟩, hw⟩
  | some pos =>
    cases pos with
    | launched sf =>
      simp only [hw] at hwk
      have h := start_inv env true w sf ha hs hlo hhi hwk.1 hwk.2.1 hwk.2.2.1 hwk.2.2.2
      exact ⟨h.1, h.2 rfl⟩
    | inPlay sf i src rest =>
      simp only [hw] at hwk
      have h := resume_inv env true w sf i src rest ha hs hlo hhi hwk.1 hwk.2.1 hwk.2.2.1
        hwk.2.2.2
      exact ⟨h.1, h.2 rfl⟩

/-- The method `Stop` without a published track: the bookmark carries the
pending offset. -/
theorem Stop_of_noTrack (env : Env) (w : World) (h : w.p.trk = none) :
    Stop env w = join env
      { w with p := { w.p with playing := false },
               log := w.log ++ [.playingClear,
                 .setBook w.p.bookID w.p.bookName w.p.fragment w.p.offset] } := by
  unfold Stop
  simp [h, World.emit]

/-- The method `Stop` with a published track: the track is stopped and the
bookmark carries its elapsed time. -/
theorem Stop_of_track (env : Env) (w : World) (t : Track) (h : w.p.trk = some t) :
    Stop env w = join env
      { w with p := { w.p with playing := false, trk := some t.stop },
               log := w.log ++ [.playingClear, .trkStop,
                 .setBook w.p.bookID w.p.bookName w.p.fragment t.elapsed] } := by
  unfold Stop
  simp [h, World.emit, Track.getElapsedTime]

/-- The method `Stop` keeps the invariant and leaves no worker behind. -/
theorem Stop_inv (env : Env) (w : World) (h : Inv w) :
    Inv (Stop env w) ∧ (Stop env w).worker = none := by
  have hwk := h.worker
  unfold workerOk at hwk
  cases htrk : w.p.trk with
  | none =>
    rw [Stop_of_noTrack env w htrk]
    refine join_inv env _ h.alive h.supp h.fragLo h.fragHi rfl ?_
    cases hw : w.worker with
    | none => simp only [hw] at hwk; exact ⟨hwk.1, htrk⟩
    | some pos =>
      cases pos with
      | launched sf =>
        simp only [hw] at hwk
        exact ⟨hwk.1, htrk, hwk.2.2.2.1, hwk.2.2.2.2⟩
      | inPlay sf i src rest =>
        simp only [hw] at hwk
        exact ⟨hwk.1, hwk.2.2.2.1, hwk.2.2.2.2.1, hwk.2.2.2.2.2⟩
  | some t =>
    rw [Stop_of_track env w t htrk]
    refine join_inv env _ h.alive h.supp h.fragLo h.fragHi rfl ?_
    cases hw : w.worker with
    | none => simp only [hw] at hwk; rw [htrk] at hwk; simp at hwk
    | some pos =>
      cases pos with
      | launched sf => simp only [hw] at hwk; rw [htrk] at hwk; simp at hwk
      | inPlay sf i src rest =>
        simp only [hw] at hwk
        exact ⟨hwk.1, hwk.2.2.2.1, hwk.2.2.2.2.1, hwk.2.2.2.2.2⟩

/-- The method `Play` keeps the invariant. -/
theorem Play_inv (env : Env) (w : World) (h : Inv w) : Inv (Play env w) := by
  obtain ⟨hi, hnone⟩ := Stop_inv env w h
  have hwk := hi.worker
  unfold workerOk at hwk
  rw [hnone] at hwk
  unfold Play
  refine ⟨hi.alive, hi.supp, hi.fragLo, hi.fragHi, ?_⟩
  simp only [workerOk, hwk.1, hwk.2.1, hwk.2.2, true_and]
  exact ⟨hi.fragLo, hi.fragHi⟩

/-- The invariant does not look at the log. -/
theorem Inv.of_fragment {w : World} (h : Inv w) (f : Int) (h0 : 0 ≤ f)
    (h1 : f ≤ w.p.playList.length) : Inv { w with p := { w.p with fragment := f } } :=
  ⟨h.alive, h.supp, h0, h1, h.worker⟩

/-- A move of the worker keeps the invariant. -/
theorem advance_inv (env : Env) (w : World) (pr : Progress) (h : Inv w) :
    Inv (advance env w pr) := by
  have hwk := h.worker
  unfold workerOk at hwk
  unfold advance
  rw [if_neg (by simp [h.alive])]
  cases pr with
  | workerRun =>
    cases hw : w.worker with
    | none => exact h
    | some pos =>
      cases pos with
      | launched sf =>
        simp only [hw] at hwk
        exact (start_inv env false w sf h.alive h.supp h.fragLo h.fragHi hwk.1 hwk.2.2.1
          hwk.2.2.2.1 hwk.2.2.2.2).1
      | inPlay sf i src rest => exact h
  | trackEnd =>
    cases hw : w.worker with
    | none => exact h
    | some pos =>
      cases pos with
      | launched sf => exact h
      | inPlay sf i src rest =>
        simp only [hw] at hwk
        exact (resume_inv env false w sf i src rest h.alive h.supp h.fragLo h.fragHi hwk.1
          hwk.2.2.2.1 hwk.2.2.2.2.1 hwk.2.2.2.2.2).1
  | tick d =>
    cases hw : w.worker with
    | none => exact h
    | some pos =>
      cases pos with
      | launched sf => exact h
      | inPlay sf i src rest =>
        cases htrk : w.p.trk with
        | none => exact h
        | some t =>
          simp only [hw] at hwk
          refine ⟨h.alive, h.supp, h.fragLo, h.fragHi, ?_⟩
          simp only [workerOk, hw]
          exact ⟨hwk.1, hwk.2.1, rfl, hwk.2.2.2⟩

/-- Moves of the worker keep the invariant. -/
theorem advanceAll_inv (b : List (Env × Progress)) :
    ∀ w : World, Inv w → Inv (advanceAll w b) := by
  induction b with
  | nil => intro w h; exact h
  | cons st b ih =>
    intro w h
    obtain ⟨env, pr⟩ := st
    exact ih _ (advance_inv env w pr h)

/-- The end of `SetTrack` keeps the invariant. -/
theorem SetTrack.restart_inv (env : Env) (w : World) (b1 b2 : List (Env × Progress))
    (h : Inv w) : Inv (SetTrack.restart env w b1 b2) := by
  unfold SetTrack.restart
  have h1 := advanceAll_inv b1 w h
  simp only []
  split_ifs
  · exact Play_inv env _ (advanceAll_inv b2 _ h1)
  · exact h1

/-- The method `SetTrack` keeps the invariant, whatever its argument and
whatever the worker does meanwhile. -/
theorem SetTrack_inv (env : Env) (w : World) (fragment : Int) (b1 b2 : List (Env × Progress))
    (h : Inv w) : Inv (SetTrack env w fragment b1 b2) := by
  unfold SetTrack
  by_cases h0 : fragment < 0
  · rw [if_pos h0]
    exact SetTrack.restart_inv env _ b1 b2 (h.of_fragment 0 le_rfl (Int.natCast_nonneg _))
  · rw [if_neg h0]
    by_cases h1 : fragment ≥ w.p.playList.length
    · rw [if_pos h1]; exact h
    · rw [if_neg h1]
      exact SetTrack.restart_inv env _ b1 b2 (h.of_fragment fragment (by omega) (by omega))

/-- The critical section of `PlayPause` keeps the invariant. -/
theorem pauseCrit_inv (w : World) (h : Inv w) :
    Inv (match w.p.trk with
      | some t =>
        { w with p := { w.p with pause := !w.p.pause, trk := some (t.pause (!w.p.pause)) } }
      | none => w) := by
  have hwk := h.worker
  unfold workerOk at hwk
  cases htrk : w.p.trk with
  | none => exact h
  | some t =>
    refine ⟨h.alive, h.supp, h.fragLo, h.fragHi, ?_⟩
    unfold workerOk
    cases hw : w.worker with
    | none => simp only [hw] at hwk; rw [htrk] at hwk; simp at hwk
    | some pos =>
      cases pos with
      | launched sf => simp only [hw] at hwk; rw [htrk] at hwk; simp at hwk
      | inPlay sf i src rest =>
        simp only [hw] at hwk
        exact ⟨hwk.1, hwk.2.1, rfl, hwk.2.2.2⟩

theorem SetSpeed_frame (p : Player) (speed : Float64) : Frame p (SetSpeed p speed) := by
  unfold Frame SetSpeed
  cases htrk : p.trk <;> (simp only []; split_ifs <;> simp [htrk])

theorem ChangeVolume_frame (p : Player) (offset : Int) : Frame p (ChangeVolume p offset) := by
  unfold Frame ChangeVolume
  cases htrk : p.trk <;> simp [htrk]

/-- The invariant only looks at the framed fields of the player. -/
theorem Inv.of_frame {w : World} {q : Player} (h : Inv w) (hq : Frame w.p q) :
    Inv { w with p := q } := by
  have hwk := h.worker
  unfold workerOk at hwk
  obtain ⟨h1, h2, h3, h4, h5⟩ := hq
  refine ⟨h.alive, by simpa only [h1] using h.supp, by simpa only [h2] using h.fragLo,
    by simpa only [h1, h2] using h.fragHi, ?_⟩
  unfold workerOk
  cases hw : w.worker with
  | none =>
    simp only [hw] at hwk
    simp only [h3, h4]
    refine ⟨hwk.1, hwk.2.1, ?_⟩
    have := hwk.2.2 ▸ h5
    simpa using this
  | some pos =>
    cases pos with
    | launched sf =>
      simp only [hw] at hwk
      simp only [h1, h3, h4]
      refine ⟨hwk.1, hwk.2.1, ?_, hwk.2.2.2⟩
      have := hwk.2.2.1 ▸ h5
      simpa using this
    | inPlay sf i src rest =>
      simp only [hw] at hwk
      simp only [h1, h3, h4, h5]
      exact hwk

/-- One step keeps the invariant. -/
theorem step_inv (env : Env) (w : World) (op : Op) (h : Inv w) : Inv (step env w op) := by
  have hwk := h.worker
  unfold workerOk at hwk
  unfold step
  rw [if_neg (by simp [h.alive])]
  cases op with
  | SetTrack fragment b1 b2 => exact SetTrack_inv env w fragment b1 b2 h
  | ChangeTrack offset b0 b1 b2 =>
    exact SetTrack_inv env _ _ b1 b2 (advanceAll_inv b0 w h)
  | Play => exact Play_inv env w h
  | PlayPause b =>
    have hb := advanceAll_inv b w h
    simp only [PlayPause]
    split_ifs
    · exact Play_inv env _ hb
    · exact pauseCrit_inv _ hb
  | Stop => exact (Stop_inv env w h).1
  | Rewind offset =>
    simp only [Rewind]
    by_cases hpl : w.p.playing = true
    · rw [if_neg (by simp [hpl])]
      cases htrk : w.p.trk with
      | none => exact h
      | some t =>
        refine ⟨h.alive, h.supp, h.fragLo, h.fragHi, ?_⟩
        unfold workerOk
        cases hw : w.worker with
        | none => simp only [hw] at hwk; rw [htrk] at hwk; simp at hwk
        | some pos =>
          cases pos with
          | launched sf => simp only [hw] at hwk; rw [htrk] at hwk; simp at hwk
          | inPlay sf i src rest =>
            simp only [hw] at hwk
            exact ⟨hwk.1, hwk.2.1, rfl, hwk.2.2.2⟩
    · rw [if_pos (by simpa using hpl)]
      exact ⟨h.alive, h.supp, h.fragLo, h.fragHi, hwk⟩
  | SetSpeed speed => exact h.of_frame (SetSpeed_frame w.p speed)
  | ChangeSpeed add offset => exact h.of_frame (SetSpeed_frame w.p _)
  | ChangeVolume offset => exact h.of_frame (ChangeVolume_frame w.p offset)
  | workerRun =>
    exact advance_inv env w .workerRun h
  | trackEnd =>
    exact advance_inv env w .trackEnd h
  | tick d =>
    exact advance_inv env w (.tick d) h

/-- A run keeps the invariant. -/
theorem run_inv (steps : List (Env × Op)) : ∀ w : World, Inv w → Inv (run w steps) := by
  induction steps with
  | nil => intro w h; exact h
  | cons s steps ih =>
    intro w h
    obtain ⟨env, op⟩ := s
    exact ih _ (step_inv env w op h)

/-- A player that was just built satisfies the invariant. -/
theorem init_inv (bookID bookName : String) (rs : List Resource) :
    Inv (World.init (NewPlayer bookID bookName rs)) := by
  have hpl : (NewPlayer bookID bookName rs) =
      { playList := rs.filter supported, bookID := bookID, bookName := bookName,
        playing := false, wg := 0, pause := false, trk := none, speed := DEFAULT_SPEED,
        fragment := 0, offset := 0 } := by
    unfold NewPlayer
    simp only [NewPlayer_foldl]
    simp
  rw [hpl]
  refine ⟨rfl, ?_, le_rfl, Int.natCast_nonneg _, ?_⟩
  · intro r hr
    exact (List.mem_filter.mp hr).2
  · simp [workerOk, World.init]

/-- Every reachable world satisfies the invariant. -/
theorem Reachable.inv {w : World} (h : Reachable w) : Inv w := by
  obtain ⟨bookID, bookName, rs, steps, rfl⟩ := h
  exact run_inv steps _ (init_inv bookID bookName rs)

/-! ## Track navigation -/

/-! ## The abort branches of the worker -/

/-- Claim C10: for every player built by `NewPlayer` from any resource list and
driven by any sequence of control operations and worker progress, the program
has not aborted, the stored fragment `f` satisfies `0 <= f <= len(playList)`,
the fragment a launched worker slices the playlist at is in bounds as well,
every resource of the playlist and every resource a blocked worker still has
to dispatch has the MimeType "audio/x-lkf" or "audio/mpeg", and no further
step of the player aborts. -/
theorem abort_unreachable (w : World) (h : Reachable w) :
    w.panicked = false ∧
    0 ≤ w.p.fragment ∧ w.p.fragment ≤ w.p.playList.length ∧
    (∀ sf, w.worker = some (.launched sf) → 0 ≤ sf ∧ sf ≤ w.p.playList.length) ∧
    (∀ r ∈ w.p.playList, r.MimeType = "audio/x-lkf" ∨ r.MimeType = "audio/mpeg") ∧
    (∀ sf i src rest, w.worker = some (.inPlay sf i src rest) →
      ∀ r ∈ rest, r.MimeType = "audio/x-lkf" ∨ r.MimeType = "audio/mpeg") ∧
    (∀ env op, (step env w op).panicked = false) := by
  have hinv := h.inv
  have hmime : ∀ r : Resource, supported r = true →
      r.MimeType = "audio/x-lkf" ∨ r.MimeType = "audio/mpeg" := by
    intro r hr
    simp only [supported, Bool.or_eq_true, beq_iff_eq] at hr
    exact hr.symm
  have hwk := hinv.worker
  unfold workerOk at hwk
  refine ⟨hinv.alive, hinv.fragLo, hinv.fragHi, ?_, ?_, ?_, ?_⟩
  · intro sf hsf
    simp only [hsf] at hwk
    exact hwk.2.2.2
  · intro r hr
    exact hmime r (hinv.supp r hr)
  · intro sf i src rest hw r hr
    simp only [hw] at hwk
    exact hmime r (hwk.2.2.2.2.1 r hr)
  · intro env op
    exact (step_inv env w op hinv).alive

/-- Claim C10 on the example book while its first resource plays. -/
theorem abort_unreachable_witness :
    book3Playing.panicked = false ∧
    0 ≤ book3Playing.p.fragment ∧
    book3Playing.p.fragment ≤ book3Playing.p.playList.length :=
  have h := abort_unreachable book3Playing ⟨"id", "name", [res1, res2, res3], _, rfl⟩
  ⟨h.1, h.2.1, h.2.2.1⟩

/-! ## A resource that fails to resolve -/

/-- The player built from supported resources keeps them all. -/
theorem NewPlayer_of_supported (bookID bookName : String) (rs : List Resource)
    (h : ∀ r ∈ rs, supported r = true) :
    NewPlayer bookID bookName rs =
      { playList := rs, bookID := bookID, bookName := bookName, playing := false, wg := 0,
        pause := false, trk := none, speed := DEFAULT_SPEED, fragment := 0, offset := 0 } := by
  unfold NewPlayer
  simp only [NewPlayer_foldl]
  have : rs.filter supported = rs := List.filter_eq_self.mpr h
  simp [this]

/-- Claim C6, as amended: for a playlist of three resources played from the
first one, where resource 1 resolves and plays for `d` nanoseconds to its
natural end and resource 2 fails to resolve, the log of the whole session is
the one displayed: the worker exits after the failed resolution of resource 2
without attempting resource 3, and the `Stop` that follows calls `SetBook`
with fragment 0, the index of resource 1, and with the pending offset, which
is 0 since the track of resource 1 consumed it. -/
theorem bookmark_after_resolve_failure (env : Env) (bookID bookName : String)
    (r1 r2 r3 : Resource) (src : ReadCloser) (uri : String) (mp3 : Reader) (d : Nat)
    (hs1 : supported r1 = true) (hs2 : supported r2 = true) (hs3 : supported r3 = true)
    (hres1 : resolve env bookName r1 = .ok src uri)
    (hd : dispatch r1 src = some mp3)
    (hdec : env.decodes mp3 = true)
    (hseek : ∀ t, env.seeks t 0 = true)
    (hres2 : resolve env bookName r2 = .failed) :
    (run (World.init (NewPlayer bookID bookName [r1, r2, r3])) (sessionThenStop env d)).log
      = [.playingClear, .setBook bookID bookName 0 0, .launch 0, .playingSet]
        ++ resolveEvents env bookName r1
        ++ [.newTrack uri true, .rewind 0 true, .publish 0, .setFragments 0 3, .play 0,
            .played 0 d, .close src]
        ++ resolveEvents env bookName r2
        ++ [.playingClear, .done, .playingClear, .setBook bookID bookName 0 0] ∧
    (run (World.init (NewPlayer bookID bookName [r1, r2, r3]))
      (sessionThenStop env d)).worker = none ∧
    (run (World.init (NewPlayer bookID bookName [r1, r2, r3]))
      (sessionThenStop env d)).panicked = false := by
  rw [NewPlayer_of_supported bookID bookName [r1, r2, r3] (by simp [hs1, hs2, hs3])]
  simp [sessionThenStop, run, step, advance, World.init, Play, Stop, join, World.emit, start,
    loop,
    iteration, hres1, hd, newTrack, hdec, Track.rewind, hseek, resume, afterPlay, hres2,
    workerExit]

/-- The amended claim C6 on the example book, whose second resource does not
connect, with a first track of 5000 nanoseconds. -/
theorem bookmark_after_resolve_failure_witness :
    (run book3 (sessionThenStop envNet 5000)).log
      = [.playingClear, .setBook "id" "name" 0 0, .launch 0, .playingSet, .connect "u1",
         .newTrack "u1" true, .rewind 0 true, .publish 0, .setFragments 0 3, .play 0,
         .played 0 5000, .close (.conn 1), .connect "u2",
         .playingClear, .done, .playingClear, .setBook "id" "name" 0 0] :=
  (bookmark_after_resolve_failure envNet "id" "name" res1 res2 res3 (.conn 1) "u1"
    (.plain (.conn 1)) 5000 (by decide) (by decide) (by decide) (by decide) (by decide)
    (by decide) (fun _ => rfl) (by decide)).1

/-- Claim C6 fails on the example book: the track of resource 1 has played for
5000 nanoseconds when it ends, the resolution of resource 2 fails, and the
bookmark written by the `Stop` that follows, the last event of the log, has
fragment 0 and elapsed time 0; no bookmark with the elapsed time 5000 of
resource 1 is written. -/
theorem bookmark_elapsed_counterexample :
    Event.played 0 5000 ∈ (run book3 (sessionThenStop envNet 5000)).log ∧
    (run book3 (sessionThenStop envNet 5000)).log.getLast? = some (.setBook "id" "name" 0 0) ∧
    Event.setBook "id" "name" 1 5000 ∉ (run book3 (sessionThenStop envNet 5000)).log ∧
    Event.setBook "id" "name" 0 5000 ∉ (run book3 (sessionThenStop envNet 5000)).log := by
  decide

/-! ## The pending offset -/

theorem tracksSought_append (l1 l2 : List Event) :
    tracksSought (l1 ++ l2) = tracksSought l1 ++ tracksSought l2 := by
  simp [tracksSought, List.filterMap_append]

theorem tracksSought_resolveEvents (env : Env) (bookName : String) (r : Resource) :
    tracksSought (resolveEvents env bookName r) = [] := by
  unfold resolveEvents
  simp only []
  split_ifs <;> rfl

/-- One iteration either leaves the pending offset alone and seeks no track,
or resets the pending offset and seeks at most one track, to the offset that
was pending. -/
theorem iteration_sought (env : Env) (w : World) (sf : Int) (i : Nat) (r : Resource) :
    ∃ evs, (iteration env w sf i r).world.log = w.log ++ evs ∧
      (((iteration env w sf i r).world.p.offset = w.p.offset ∧ tracksSought evs = []) ∨
       ((iteration env w sf i r).world.p.offset = 0 ∧
         (tracksSought evs = [] ∨ tracksSought evs = [w.p.offset]))) := by
  have hre := tracksSought_resolveEvents env w.p.bookName r
  unfold iteration
  simp only [World.emit]
  cases hres : resolve env w.p.bookName r with
  | failed => exact ⟨_, rfl, Or.inl ⟨rfl, hre⟩⟩
  | ok src uri =>
    simp only []
    cases hd : dispatch r src with
    | none => exact ⟨_, rfl, Or.inl ⟨rfl, hre⟩⟩
    | some mp3 =>
      simp only []
      cases hnt : newTrack env mp3 w.p.speed r.Size with
      | none =>
        refine ⟨resolveEvents env w.p.bookName r ++ [.newTrack uri false], ?_, Or.inr ⟨rfl, Or.inl ?_⟩⟩
        · simp [Iter.world]
        · rw [tracksSought_append, hre]; rfl
      | some trk =>
        simp only []
        rcases hrw : trk.rewind env w.p.offset with ⟨t1, b⟩
        cases b with
        | false =>
          refine ⟨resolveEvents env w.p.bookName r ++
            [.newTrack uri true, .rewind w.p.offset false], ?_, Or.inr ⟨rfl, Or.inr ?_⟩⟩
          · simp [Iter.world]
          · rw [tracksSought_append, hre]; rfl
        | true =>
          simp only []
          by_cases hp : w.p.playing = true
          · rw [if_neg (by simp [hp])]
            refine ⟨resolveEvents env w.p.bookName r ++
              [.newTrack uri true, .rewind w.p.offset true, .publish (sf + i),
               .setFragments (sf + i) w.p.playList.length, .play (sf + i)], ?_,
              Or.inr ⟨rfl, Or.inr ?_⟩⟩
            · simp [Iter.world]
            · rw [tracksSought_append, hre]; rfl
          · rw [if_pos (by simpa using hp)]
            refine ⟨resolveEvents env w.p.bookName r ++
              [.newTrack uri true, .rewind w.p.offset true, .close src], ?_,
              Or.inr ⟨rfl, Or.inr ?_⟩⟩
            · simp [Iter.world]
            · rw [tracksSought_append, hre]; rfl

/-- Once the pending offset is zero, the rest of the session keeps it zero and
seeks every track to 0. -/
theorem loop_sought_zero (env : Env) (through : Bool) (sf : Int) (rest : List Resource) :
    ∀ (i : Nat) (w : World), w.p.offset = 0 →
      ∃ evs k, (loop env through sf rest i w).log = w.log ++ evs ∧
        tracksSought evs = List.replicate k 0 ∧
        (loop env through sf rest i w).p.offset = 0 := by
  induction rest with
  | nil =>
    intro i w h0
    exact ⟨[.playingClear, .done], 0, rfl, rfl, h0⟩
  | cons r rest ih =>
    intro i w h0
    obtain ⟨evs, hlog, hcase⟩ := iteration_sought env w sf i r
    rw [h0] at hcase
    have hz : (iteration env w sf i r).world.p.offset = 0 ∧
        ∃ k, tracksSought evs = List.replicate k 0 := by
      rcases hcase with ⟨h1, h2⟩ | ⟨h1, h2 | h2⟩
      · exact ⟨h1, 0, h2⟩
      · exact ⟨h1, 0, h2⟩
      · exact ⟨h1, 1, h2⟩
    obtain ⟨hoff, k1, hk1⟩ := hz
    simp only [loop]
    cases hiter : iteration env w sf i r with
    | brk w1 =>
      simp only [hiter, Iter.world] at hlog hoff
      refine ⟨evs ++ [.playingClear, .done], k1, ?_, ?_, hoff⟩
      · simp [workerExit, hlog]
      · rw [tracksSought_append, hk1]; simp [tracksSought]
    | cont w1 =>
      simp only [hiter, Iter.world] at hlog hoff
      obtain ⟨evs2, k2, hlog2, hk2, hoff2⟩ := ih (i + 1) w1 hoff
      refine ⟨evs ++ evs2, k1 + k2, ?_, ?_, hoff2⟩
      · simp [hlog2, hlog]
      · rw [tracksSought_append, hk1, hk2, List.replicate_add]
    | abort w1 =>
      simp only [hiter, Iter.world] at hlog hoff
      exact ⟨evs, k1, hlog, hk1, hoff⟩
    | play w1 src =>
      simp only [hiter, Iter.world] at hlog hoff
      cases through with
      | false => exact ⟨evs, k1, hlog, hk1, hoff⟩
      | true =>
        simp only [if_true]
        by_cases hpl : (afterPlay w1 sf i src).p.playing = true
        · rw [if_neg (by simp [hpl])]
          obtain ⟨evs2, k2, hlog2, hk2, hoff2⟩ := ih (i + 1) (afterPlay w1 sf i src) hoff
          refine ⟨evs ++ ((afterPlay w1 sf i src).log.drop w1.log.length ++ evs2), k1 + k2,
            ?_, ?_, hoff2⟩
          · rw [hlog2]; simp [afterPlay, hlog]
          · rw [tracksSought_append, tracksSought_append, hk1, hk2, List.replicate_add]
            simp [afterPlay, tracksSought]
        · rw [if_pos (by simpa using hpl)]
          refine ⟨evs ++ ((afterPlay w1 sf i src).log.drop w1.log.length ++
            [.playingClear, .done]), k1, ?_, ?_, hoff⟩
          · simp [workerExit, afterPlay, hlog]
          · rw [tracksSought_append, tracksSought_append, hk1]
            simp [afterPlay, tracksSought]

/-- Claim C7, as amended: when the player is not playing, `Rewind(d)` stores
`d` as the pending offset and changes nothing else; when playback is running
it leaves the stored pending offset unchanged.  In a worker run the pending
offset is taken, and reset to zero, by the first resource that resolves: if
the track of that resource is constructed it is the one sought to the pending
offset, otherwise no track is; the pending offset is zero afterwards and every
later track of the session is sought to 0. -/
theorem Rewind_pending_offset (env : Env) (through : Bool) (w : World) (d : Int) :
    (w.p.playing = false → Rewind env w d = { w with p := { w.p with offset := d } }) ∧
    (w.p.playing = true → (Rewind env w d).p.offset = w.p.offset) ∧
    (∀ (sf : Int) (r : Resource) (rest : List Resource) (src : ReadCloser) (uri : String)
        (mp3 : Reader),
      0 ≤ sf → w.p.playList.drop sf.toNat = r :: rest →
      resolve env w.p.bookName r = .ok src uri → dispatch r src = some mp3 →
      ∃ evs k, (start env through w sf).log = w.log ++ evs ∧
        tracksSought evs
          = (if env.decodes mp3 = true then [w.p.offset] else []) ++ List.replicate k 0 ∧
        (start env through w sf).p.offset = 0) := by
  refine ⟨?_, ?_, ?_⟩
  · intro hpl
    simp [Rewind, hpl]
  · intro hpl
    simp only [Rewind, hpl, Bool.not_true, Bool.false_eq_true, if_false]
    cases w.p.trk <;> rfl
  · intro sf r rest src uri mp3 hsf hdrop hres hd
    have hlen : sf ≤ w.p.playList.length := by
      have h1 : sf.toNat < w.p.playList.length := by
        by_contra hge
        rw [List.drop_eq_nil_of_le (by omega)] at hdrop
        cases hdrop
      omega
    have hre := tracksSought_resolveEvents env w.p.bookName r
    unfold start
    simp only []
    rw [if_pos ⟨hsf, hlen⟩, hdrop]
    simp only [loop, iteration, World.emit, hres, hd, newTrack]
    by_cases hdec : env.decodes mp3 = true
    · simp only [hdec, if_true]
      rcases hrw : Track.rewind env
          { speed := w.p.speed, volL := env.gain.1, volR := env.gain.2, paused := false,
            stopped := false, elapsed := 0, sought := 0 } w.p.offset with ⟨t1, b⟩
      cases b with
      | false =>
        simp only []
        obtain ⟨evs2, k2, hlog2, hk2, hoff2⟩ := loop_sought_zero env through sf rest (0 + 1)
          { p := { w.p with playing := true, offset := 0 }, worker := w.worker,
            log := w.log ++ [.playingSet] ++ resolveEvents env w.p.bookName r ++
              [.newTrack uri true] ++ [.rewind w.p.offset false],
            panicked := w.panicked } rfl
        refine ⟨[.playingSet] ++ resolveEvents env w.p.bookName r ++
              [.newTrack uri true] ++ [.rewind w.p.offset false] ++ evs2, k2, ?_, ?_, hoff2⟩
        · rw [hlog2]; simp
        · simp only [tracksSought_append, hre, hk2]; rfl
      | true =>
        simp only [Bool.not_true, Bool.false_eq_true, if_false]
        cases through with
        | false =>
          refine ⟨[.playingSet] ++ resolveEvents env w.p.bookName r ++
              [.newTrack uri true] ++ [.rewind w.p.offset true] ++
              [.publish (sf + (0 : Nat)), .setFragments (sf + (0 : Nat)) w.p.playList.length,
               .play (sf + (0 : Nat))], 0, ?_, ?_, rfl⟩
          · simp
          · simp only [tracksSought_append, hre]; rfl
        | true =>
          simp only [if_true, afterPlay, Bool.not_true, Bool.false_eq_true, if_false]
          obtain ⟨evs2, k2, hlog2, hk2, hoff2⟩ := loop_sought_zero env true sf rest (0 + 1)
            { p := { w.p with playing := true, offset := 0, trk := none,
                              fragment := sf + (0 : Nat) },
              worker := w.worker,
              log := w.log ++ [.playingSet] ++ resolveEvents env w.p.bookName r ++
                [.newTrack uri true] ++ [.rewind w.p.offset true] ++
                [.publish (sf + (0 : Nat)),
                 .setFragments (sf + (0 : Nat)) w.p.playList.length,
                 .play (sf + (0 : Nat))] ++
                [.played (sf + (0 : Nat)) t1.elapsed, .close src],
              panicked := w.panicked } rfl
          refine ⟨[.playingSet] ++ resolveEvents env w.p.bookName r ++
                [.newTrack uri true] ++ [.rewind w.p.offset true] ++
                [.publish (sf + (0 : Nat)),
                 .setFragments (sf + (0 : Nat)) w.p.playList.length,
                 .play (sf + (0 : Nat))] ++
                [.played (sf + (0 : Nat)) t1.elapsed, .close src] ++ evs2, k2, ?_, ?_, hoff2⟩
          · rw [hlog2]; simp
          · simp only [tracksSought_append, hre, hk2]; rfl
    · have hdec' : env.decodes mp3 = false := by simpa using hdec
      simp only [hdec', Bool.false_eq_true, if_false]
      obtain ⟨evs2, k2, hlog2, hk2, hoff2⟩ := loop_sought_zero env through sf rest (0 + 1)
        { p := { w.p with playing := true, offset := 0 }, worker := w.worker,
          log := w.log ++ [.playingSet] ++ resolveEvents env w.p.bookName r ++
            [.newTrack uri false],
          panicked := w.panicked } rfl
      refine ⟨[.playingSet] ++ resolveEvents env w.p.bookName r ++
            [.newTrack uri false] ++ evs2, k2, ?_, ?_, hoff2⟩
      · rw [hlog2]; simp
      · simp only [tracksSought_append, hre, hk2]; rfl

/-- The amended claim C7 on the example book: `Rewind(7)` on the stopped
player stores 7, and in the session that follows the first track is sought to
7 and every later one to 0. -/
theorem Rewind_pending_offset_witness :
    Rewind envNet book3 7 = { book3 with p := { book3.p with offset := 7 } } ∧
    ∃ evs k, (start envNet true (Rewind envNet book3 7) 0).log
        = (Rewind envNet book3 7).log ++ evs ∧
      tracksSought evs = [7] ++ List.replicate k 0 ∧
      (start envNet true (Rewind envNet book3 7) 0).p.offset = 0 :=
  ⟨(Rewind_pending_offset envNet true book3 7).1 (by decide),
   (Rewind_pending_offset envNet true (Rewind envNet book3 7) 7).2.2 0 res1 [res2, res3]
     (.conn 1) "u1" (.plain (.conn 1)) (by decide) (by decide) (by decide) (by decide)⟩

/-- Claim C7 fails on the example book when the stream of the first resource
does not decode: after `Rewind(7)` on the stopped player, the worker takes the
pending offset 7 for the first resource, whose track construction fails; the
next track that is created, the one of the second resource, is sought to 0,
and no track is sought to 7. -/
theorem Rewind_offset_lost_counterexample :
    (run book3 [(envLkfOnly, .Rewind 7), (envLkfOnly, .Play), (envLkfOnly, .workerRun)]).log
      = [.playingClear, .setBook "id" "name" 0 7, .launch 0, .playingSet,
         .connect "u1", .newTrack "u1" false,
         .connect "u2", .newTrack "u2" true, .rewind 0 true,
         .publish 1, .setFragments 1 3, .play 1] ∧
    tracksSought
      (run book3 [(envLkfOnly, .Rewind 7), (envLkfOnly, .Play), (envLkfOnly, .workerRun)]).log
      = [0] ∧
    (run book3 [(envLkfOnly, .Rewind 7), (envLkfOnly, .Play),
      (envLkfOnly, .workerRun)]).p.offset = 0 := by
  decide

/-! ## At most one worker -/

/-- The control thread counts a goroutine only by the action `playAdd` and
launches one only by the action `playGo` that follows it; the action
`playAdd` is reached only from a `p.wg.Wait()` that found the counter at
zero; no other action changes the counter. -/
theorem cstep_wg (env : Env) (p : Player) (log : List Event) (c : Ctl) (res : CResult)
    (h : cstep env p log c = some res) :
    (c = .playAdd ∧ res.ctl = .playGo ∧ res.spawn = none ∧ res.p.wg = p.wg + 1) ∨
    (c = .playGo ∧ res.ctl = .idle ∧ res.spawn.isSome = true ∧ res.p.wg = p.wg) ∨
    (c.launching = 0 ∧ c ≠ .playAdd ∧ res.ctl.launching = 0 ∧ res.spawn = none ∧
      res.p.wg = p.wg ∧ (res.ctl = .playAdd → p.wg = 0)) := by
  cases c with
  | idle => simp [cstep] at h
  | stopClear k =>
    simp only [cstep, Option.some.injEq] at h; subst h
    exact Or.inr (Or.inr ⟨rfl, by simp, rfl, rfl, rfl, by simp⟩)
  | stopCrit k =>
    simp only [cstep] at h
    cases htrk : p.trk with
    | none =>
      simp only [htrk, Option.some.injEq] at h; subst h
      exact Or.inr (Or.inr ⟨rfl, by simp, rfl, rfl, rfl, by simp⟩)
    | some t =>
      simp only [htrk, Option.some.injEq] at h; subst h
      exact Or.inr (Or.inr ⟨rfl, by simp, rfl, rfl, rfl, by simp⟩)
  | stopWait k =>
    simp only [cstep] at h
    by_cases hwg : p.wg = 0
    · rw [if_pos hwg] at h
      simp only [Option.some.injEq] at h; subst h
      refine Or.inr (Or.inr ⟨rfl, by simp, ?_, rfl, rfl, fun _ => hwg⟩)
      cases k <;> rfl
    · rw [if_neg hwg] at h; cases h
  | playAdd =>
    simp only [cstep, Option.some.injEq] at h; subst h
    exact Or.inl ⟨rfl, rfl, rfl, rfl⟩
  | playGo =>
    simp only [cstep, Option.some.injEq] at h; subst h
    exact Or.inr (Or.inl ⟨rfl, rfl, rfl, rfl⟩)
  | setTrackCrit fragment =>
    simp only [cstep] at h
    split_ifs at h <;>
      (simp only [Option.some.injEq] at h; subst h
       exact Or.inr (Or.inr ⟨rfl, by simp, rfl, rfl, rfl, by simp⟩))
  | setTrackCheck =>
    simp only [cstep, Option.some.injEq] at h; subst h
    refine Or.inr (Or.inr ⟨rfl, by simp, ?_, rfl, rfl, ?_⟩) <;> cases p.playing <;> simp [Ctl.launching]
  | changeTrackCrit offset =>
    simp only [cstep, Option.some.injEq] at h; subst h
    exact Or.inr (Or.inr ⟨rfl, by simp, rfl, rfl, rfl, by simp⟩)
  | playPauseCheck =>
    simp only [cstep, Option.some.injEq] at h; subst h
    refine Or.inr (Or.inr ⟨rfl, by simp, ?_, rfl, rfl, ?_⟩) <;> cases p.playing <;> simp [Ctl.launching]
  | playPauseCrit =>
    simp only [cstep] at h
    cases htrk : p.trk with
    | none =>
      simp only [htrk, Option.some.injEq] at h; subst h
      exact Or.inr (Or.inr ⟨rfl, by simp, rfl, rfl, rfl, by simp⟩)
    | some t =>
      simp only [htrk, Option.some.injEq] at h; subst h
      exact Or.inr (Or.inr ⟨rfl, by simp, rfl, rfl, rfl, by simp⟩)
  | rewindCheck offset =>
    simp only [cstep, Option.some.injEq] at h; subst h
    exact Or.inr (Or.inr ⟨rfl, by simp, rfl, rfl, rfl, by simp⟩)
  | rewindCrit offset isSet =>
    simp only [cstep] at h
    cases isSet with
    | false =>
      simp only [Bool.not_false, if_true, Option.some.injEq] at h; subst h
      exact Or.inr (Or.inr ⟨rfl, by simp, rfl, rfl, rfl, by simp⟩)
    | true =>
      simp only [Bool.not_true, Bool.false_eq_true, if_false] at h
      cases htrk : p.trk with
      | none =>
        simp only [htrk, Option.some.injEq] at h; subst h
        exact Or.inr (Or.inr ⟨rfl, by simp, rfl, rfl, rfl, by simp⟩)
      | some t =>
        simp only [htrk, Option.some.injEq] at h; subst h
        exact Or.inr (Or.inr ⟨rfl, by simp, rfl, rfl, rfl, by simp⟩)
  | setSpeedCrit speed =>
    simp only [cstep, Option.some.injEq] at h; subst h
    exact Or.inr (Or.inr ⟨rfl, by simp, rfl, rfl, (SetSpeed_frame p speed).2.2.1, by simp⟩)
  | changeSpeedCrit add offset =>
    simp only [cstep, Option.some.injEq] at h; subst h
    exact Or.inr (Or.inr ⟨rfl, by simp, rfl, rfl, rfl, by simp⟩)
  | changeVolumeCrit offset =>
    simp only [cstep, Option.some.injEq] at h; subst h
    exact Or.inr (Or.inr ⟨rfl, by simp, rfl, rfl, (ChangeVolume_frame p offset).2.2.1,
      by simp⟩)

/-- A worker goroutine changes the counter of the wait group only by its last
action, the deferred `p.wg.Done()`, with which it ends. -/
theorem wstep_wg (env : Env) (locked : Bool) (p : Player) (log : List Event) (g : Goroutine)
    (p1 : Player) (log1 : List Event) (g1 : Option Goroutine)
    (h : wstep env locked p log g = .next p1 log1 g1) :
    (g1 = none ∧ p1.wg = p.wg - 1) ∨ (g1.isSome = true ∧ p1.wg = p.wg) := by
  unfold wstep at h
  cases hpc : g.pc with
  | entry =>
    simp only [hpc] at h
    split_ifs at h
    simp only [WResult.next.injEq] at h
    obtain ⟨rfl, _, rfl⟩ := h
    exact Or.inr ⟨rfl, rfl⟩
  | loopHead i =>
    simp only [hpc] at h
    split at h
    · simp only [WResult.next.injEq] at h
      obtain ⟨rfl, _, rfl⟩ := h
      exact Or.inr ⟨rfl, rfl⟩
    · split at h
      · simp only [WResult.next.injEq] at h
        obtain ⟨rfl, _, rfl⟩ := h
        exact Or.inr ⟨rfl, rfl⟩
      · split at h
        · cases h
        · simp only [WResult.next.injEq] at h
          obtain ⟨rfl, _, rfl⟩ := h
          exact Or.inr ⟨rfl, rfl⟩
  | take i r src uri mp3 =>
    simp only [hpc] at h
    split_ifs at h
    split at h
    · simp only [WResult.next.injEq] at h
      obtain ⟨rfl, _, rfl⟩ := h
      exact Or.inr ⟨rfl, rfl⟩
    · split at h
      · simp only [WResult.next.injEq] at h
        obtain ⟨rfl, _, rfl⟩ := h
        exact Or.inr ⟨rfl, rfl⟩
      · simp only [WResult.next.injEq] at h
        obtain ⟨rfl, _, rfl⟩ := h
        exact Or.inr ⟨rfl, rfl⟩
  | check i src trk =>
    simp only [hpc] at h
    split_ifs at h <;>
      (simp only [WResult.next.injEq] at h; obtain ⟨rfl, _, rfl⟩ := h; exact Or.inr ⟨rfl, rfl⟩)
  | publish i src trk =>
    simp only [hpc] at h
    split_ifs at h
    simp only [WResult.next.injEq] at h
    obtain ⟨rfl, _, rfl⟩ := h
    exact Or.inr ⟨rfl, rfl⟩
  | inPlay i src =>
    simp only [hpc, WResult.next.injEq] at h
    obtain ⟨rfl, _, rfl⟩ := h
    exact Or.inr ⟨rfl, rfl⟩
  | unpublish i =>
    simp only [hpc] at h
    split_ifs at h
    simp only [WResult.next.injEq] at h
    obtain ⟨rfl, _, rfl⟩ := h
    exact Or.inr ⟨rfl, rfl⟩
  | recheck i =>
    simp only [hpc] at h
    split_ifs at h <;>
      (simp only [WResult.next.injEq] at h; obtain ⟨rfl, _, rfl⟩ := h; exact Or.inr ⟨rfl, rfl⟩)
  | exitClear =>
    simp only [hpc, WResult.next.injEq] at h
    obtain ⟨rfl, _, rfl⟩ := h
    exact Or.inr ⟨rfl, rfl⟩
  | exitDone =>
    simp only [hpc, WResult.next.injEq] at h
    obtain ⟨rfl, _, rfl⟩ := h
    exact Or.inl ⟨rfl, rfl⟩

/-- Every transition keeps the invariant of the interleaving. -/
theorem mstep_joined (env : Env) (s s1 : Sys) (l : Label) (h : Joined s)
    (hs : mstep env s l = some s1) : Joined s1 := by
  unfold mstep at hs
  have hpan : s.panicked = false := by
    cases hp : s.panicked with
    | false => rfl
    | true => simp [hp] at hs
  simp only [hpan, Bool.false_eq_true, if_false] at hs
  have hcount := h.counted
  have hone := h.atMostOne
  cases l with
  | call c =>
    simp only [] at hs
    split_ifs at hs with hidle
    simp only [Option.some.injEq] at hs; subst hs
    have hl : s.ctl.launching = 0 := by
      cases hc : s.ctl <;> simp [hc, Ctl.isIdle] at hidle
      rfl
    refine ⟨?_, hone, ?_⟩
    · have : (Ctl.enter c).launching = 0 := by cases c <;> rfl
      simp only [this, hcount, hl]
    · intro hc
      cases c <;> simp [Ctl.enter] at hc
  | control =>
    simp only [] at hs
    cases hres : cstep env s.p s.log s.ctl with
    | none => rw [hres] at hs; exact absurd hs (by simp)
    | some res =>
      simp only [hres, Option.some.injEq] at hs; subst hs
      rcases cstep_wg env s.p s.log s.ctl res hres with
        ⟨hc, hctl, hsp, hwg⟩ | ⟨hc, hctl, hsp, hwg⟩ | ⟨hl, hc, hl1, hsp, hwg, hctl⟩
      · have hnil := h.noneAtLaunch hc
        rw [hc, hnil] at hcount
        simp only [Ctl.launching, List.length_nil, add_zero] at hcount
        refine ⟨?_, ?_, ?_⟩
        · simp [hsp, hnil, hwg, hcount, hctl, Ctl.launching]
        · simp [hwg, hcount]
        · intro hc2; simp [hctl] at hc2
      · obtain ⟨sf, hsf⟩ := Option.isSome_iff_exists.mp hsp
        rw [hc] at hcount
        simp only [Ctl.launching] at hcount
        refine ⟨?_, ?_, ?_⟩
        · simp [hsf, hwg, hcount, hctl, Ctl.launching]
        · simp only [hwg]; exact hone
        · intro hc2; simp [hctl] at hc2
      · refine ⟨?_, ?_, ?_⟩
        · simp [hsp, hwg, hcount, hl, hl1]
        · simp only [hwg]; exact hone
        · intro hc2
          have h0 := hctl hc2
          rw [hcount, hl] at h0
          simpa [hsp] using List.length_eq_zero.mp (by omega)
  | worker k =>
    simp only [] at hs
    cases hg : s.workers.get? k with
    | none => rw [hg] at hs; exact absurd hs (by simp)
    | some g =>
      simp only [hg] at hs
      have hk : k < s.workers.length := by
        by_contra hge
        rw [List.get?_eq_none.mpr (by omega)] at hg
        cases hg
      have hctl : s.ctl ≠ .playAdd := by
        intro hc
        rw [h.noneAtLaunch hc] at hk
        simp at hk
      cases hw : wstep env s.ctl.holdsLock s.p s.log g with
      | abort =>
        simp only [hw, Option.some.injEq] at hs; subst hs
        exact ⟨h.counted, h.atMostOne, h.noneAtLaunch⟩
      | blocked => simp only [hw] at hs; exact absurd hs (by simp)
      | next p1 log1 g1 =>
        rcases wstep_wg env s.ctl.holdsLock s.p s.log g p1 log1 g1 hw with
          ⟨hnone, hwg⟩ | ⟨hsome, hwg⟩
        · subst hnone
          simp only [hw, Option.some.injEq] at hs; subst hs
          refine ⟨?_, ?_, fun hc => absurd hc hctl⟩
          · simp only [hwg, hcount, List.length_eraseIdx, hk, if_true]
            omega
          · simp only [hwg]; omega
        · obtain ⟨g2, rfl⟩ := Option.isSome_iff_exists.mp hsome
          simp only [hw, Option.some.injEq] at hs; subst hs
          refine ⟨?_, ?_, fun hc => absurd hc hctl⟩
          · simp only [hwg, hcount, List.length_set]
          · simp only [hwg]; exact hone

/-- Every execution keeps the invariant of the interleaving. -/
theorem mrun_joined (steps : List (Env × Label)) :
    ∀ s s1 : Sys, Joined s → mrun s steps = some s1 → Joined s1 := by
  induction steps with
  | nil =>
    intro s s1 h hs
    simp only [mrun, Option.some.injEq] at hs
    exact hs ▸ h
  | cons st steps ih =>
    intro s s1 h hs
    obtain ⟨env, l⟩ := st
    simp only [mrun] at hs
    cases hm : mstep env s l with
    | none => rw [hm] at hs; exact absurd hs (by simp)
    | some s2 =>
      simp only [hm] at hs
      exact ih s2 s1 (mstep_joined env s s2 l h hm) hs

/-- Claim C8: in every state that an execution of the control thread and of
the workers can reach from a player built by `NewPlayer`, whatever the calls
of the control thread and whatever the interleaving, there is at most one
live `start` goroutine; the counter of the wait group is their number, plus
one between the `p.wg.Add(1)` and the `go` statement of `Play`, at which
moment no goroutine is live; and at most one goroutine has its track
published as current. -/
theorem at_most_one_worker (s : Sys) (h : MReachable s) :
    s.workers.length ≤ 1 ∧ s.p.wg = s.workers.length + s.ctl.launching ∧
    s.workers.length + s.ctl.launching ≤ 1 ∧ publishedCount s ≤ 1 := by
  obtain ⟨bookID, bookName, rs, steps, hrun⟩ := h
  have hinit : Joined (Sys.init (NewPlayer bookID bookName rs)) := by
    refine ⟨?_, ?_, fun _ => rfl⟩
    · simp only [Sys.init, List.length_nil, Ctl.launching]
      unfold NewPlayer
      simp only [NewPlayer_foldl]
    · unfold NewPlayer
      simp only [Sys.init, NewPlayer_foldl]
      exact Nat.zero_le _
  have hj := mrun_joined steps _ s hinit hrun
  have h1 : s.workers.length ≤ 1 := by
    have := hj.counted
    have := hj.atMostOne
    omega
  exact ⟨h1, hj.counted, hj.counted ▸ hj.atMostOne,
    le_trans (List.length_filter_le _ _) h1⟩

/-- Claim C8 after two calls of `Play` in quick succession: one worker is
live, the one of the second call. -/
theorem at_most_one_worker_witness :
    afterTwoPlays.workers = [{ startFragment := 0, pc := .entry }] ∧
    afterTwoPlays.workers.length ≤ 1 ∧
    afterTwoPlays.p.wg = afterTwoPlays.workers.length + afterTwoPlays.ctl.launching ∧
    afterTwoPlays.workers.length + afterTwoPlays.ctl.launching ≤ 1 ∧
    publishedCount afterTwoPlays ≤ 1 :=
  ⟨by decide, at_most_one_worker afterTwoPlays ⟨"id", "name", [res1, res2, res3], twoPlays, rfl⟩⟩

/-! ## Track navigation -/

/-- Among the actions of the control thread only the critical section of
`SetTrack` changes the field `fragment`. -/
theorem cstep_fragment (env : Env) (p : Player) (log : List Event) (c : Ctl) (res : CResult)
    (h : cstep env p log c = some res) (hc : c.writesFragment = false) :
    res.p.fragment = p.fragment := by
  cases c with
  | idle => simp [cstep] at h
  | stopClear k => simp only [cstep, Option.some.injEq] at h; subst h; rfl
  | stopCrit k =>
    simp only [cstep] at h
    cases htrk : p.trk with
    | none => simp only [htrk, Option.some.injEq] at h; subst h; rfl
    | some t => simp only [htrk, Option.some.injEq] at h; subst h; rfl
  | stopWait k =>
    simp only [cstep] at h
    by_cases hwg : p.wg = 0
    · rw [if_pos hwg] at h
      simp only [Option.some.injEq] at h; subst h; rfl
    · rw [if_neg hwg] at h; cases h
  | playAdd => simp only [cstep, Option.some.injEq] at h; subst h; rfl
  | playGo => simp only [cstep, Option.some.injEq] at h; subst h; rfl
  | setTrackCrit fragment => simp [Ctl.writesFragment] at hc
  | setTrackCheck => simp only [cstep, Option.some.injEq] at h; subst h; rfl
  | changeTrackCrit offset => simp only [cstep, Option.some.injEq] at h; subst h; rfl
  | playPauseCheck => simp only [cstep, Option.some.injEq] at h; subst h; rfl
  | playPauseCrit =>
    simp only [cstep] at h
    cases htrk : p.trk with
    | none => simp only [htrk, Option.some.injEq] at h; subst h; rfl
    | some t => simp only [htrk, Option.some.injEq] at h; subst h; rfl
  | rewindCheck offset => simp only [cstep, Option.some.injEq] at h; subst h; rfl
  | rewindCrit offset isSet =>
    simp only [cstep] at h
    cases isSet with
    | false => simp only [Bool.not_false, if_true, Option.some.injEq] at h; subst h; rfl
    | true =>
      simp only [Bool.not_true, Bool.false_eq_true, if_false] at h
      cases htrk : p.trk with
      | none => simp only [htrk, Option.some.injEq] at h; subst h; rfl
      | some t => simp only [htrk, Option.some.injEq] at h; subst h; rfl
  | setSpeedCrit speed =>
    simp only [cstep, Option.some.injEq] at h; subst h
    exact (SetSpeed_frame p speed).2.1
  | changeSpeedCrit add offset => simp only [cstep, Option.some.injEq] at h; subst h; rfl
  | changeVolumeCrit offset =>
    simp only [cstep, Option.some.injEq] at h; subst h
    exact (ChangeVolume_frame p offset).2.1

/-- Among the actions of a worker only the publication of lines 282 to 285
changes the field `fragment`. -/
theorem wstep_fragment (env : Env) (locked : Bool) (p : Player) (log : List Event)
    (g : Goroutine) (p1 : Player) (log1 : List Event) (g1 : Option Goroutine)
    (h : wstep env locked p log g = .next p1 log1 g1) (hg : g.pc.writesFragment = false) :
    p1.fragment = p.fragment := by
  unfold wstep at h
  cases hpc : g.pc with
  | entry =>
    simp only [hpc] at h
    split_ifs at h
    simp only [WResult.next.injEq] at h
    obtain ⟨rfl, _, _⟩ := h
    rfl
  | loopHead i =>
    simp only [hpc] at h
    split at h
    · simp only [WResult.next.injEq] at h
      obtain ⟨rfl, _, _⟩ := h
      rfl
    · split at h
      · simp only [WResult.next.injEq] at h
        obtain ⟨rfl, _, _⟩ := h
        rfl
      · split at h
        · cases h
        · simp only [WResult.next.injEq] at h
          obtain ⟨rfl, _, _⟩ := h
          rfl
  | take i r src uri mp3 =>
    simp only [hpc] at h
    split_ifs at h
    split at h
    · simp only [WResult.next.injEq] at h
      obtain ⟨rfl, _, _⟩ := h
      rfl
    · split at h
      · simp only [WResult.next.injEq] at h
        obtain ⟨rfl, _, _⟩ := h
        rfl
      · simp only [WResult.next.injEq] at h
        obtain ⟨rfl, _, _⟩ := h
        rfl
  | check i src trk =>
    simp only [hpc] at h
    split_ifs at h <;>
      (simp only [WResult.next.injEq] at h; obtain ⟨rfl, _, _⟩ := h; rfl)
  | publish i src trk => simp [hpc, WPc.writesFragment] at hg
  | inPlay i src =>
    simp only [hpc, WResult.next.injEq] at h
    obtain ⟨rfl, _, _⟩ := h
    rfl
  | unpublish i =>
    simp only [hpc] at h
    split_ifs at h
    simp only [WResult.next.injEq] at h
    obtain ⟨rfl, _, _⟩ := h
    rfl
  | recheck i =>
    simp only [hpc] at h
    split_ifs at h <;>
      (simp only [WResult.next.injEq] at h; obtain ⟨rfl, _, _⟩ := h; rfl)
  | exitClear =>
    simp only [hpc, WResult.next.injEq] at h
    obtain ⟨rfl, _, _⟩ := h
    rfl
  | exitDone =>
    simp only [hpc, WResult.next.injEq] at h
    obtain ⟨rfl, _, _⟩ := h
    rfl

/-- A transition that is neither the critical section of `SetTrack` nor a
publication of a worker leaves the field `fragment` alone. -/
theorem mstep_fragment (env : Env) (s s1 : Sys) (l : Label)
    (hs : mstep env s l = some s1) (hl : writesFragment s l = false) :
    s1.p.fragment = s.p.fragment := by
  unfold mstep at hs
  have hpan : s.panicked = false := by
    cases hp : s.panicked with
    | false => rfl
    | true => simp [hp] at hs
  simp only [hpan, Bool.false_eq_true, if_false] at hs
  cases l with
  | call c =>
    simp only [] at hs
    split_ifs at hs
    simp only [Option.some.injEq] at hs; subst hs
    rfl
  | control =>
    simp only [] at hs
    cases hres : cstep env s.p s.log s.ctl with
    | none => rw [hres] at hs; exact absurd hs (by simp)
    | some res =>
      simp only [hres, Option.some.injEq] at hs; subst hs
      exact cstep_fragment env s.p s.log s.ctl res hres hl
  | worker k =>
    simp only [] at hs
    simp only [writesFragment] at hl
    cases hg : s.workers.get? k with
    | none => rw [hg] at hs; exact absurd hs (by simp)
    | some g =>
      simp only [hg] at hs hl
      cases hw : wstep env s.ctl.holdsLock s.p s.log g with
      | abort =>
        simp only [hw, Option.some.injEq] at hs; subst hs
        rfl
      | blocked => simp only [hw] at hs; exact absurd hs (by simp)
      | next p1 log1 g1 =>
        have hf := wstep_fragment env s.ctl.holdsLock s.p s.log g p1 log1 g1 hw hl
        cases g1 with
        | none =>
          simp only [hw, Option.some.injEq] at hs; subst hs
          exact hf
        | some g2 =>
          simp only [hw, Option.some.injEq] at hs; subst hs
          exact hf

/-- An execution without the critical section of `SetTrack` and without a
publication of a worker leaves the field `fragment` alone. -/
theorem mrun_fragment (steps : List (Env × Label)) :
    ∀ s s2 : Sys, mrun s steps = some s2 → keepsFragment s steps = true →
      s2.p.fragment = s.p.fragment := by
  induction steps with
  | nil =>
    intro s s2 hs _
    simp only [mrun, Option.some.injEq] at hs
    rw [← hs]
  | cons st steps ih =>
    intro s s2 hs hk
    obtain ⟨env, l⟩ := st
    simp only [mrun] at hs
    simp only [keepsFragment, Bool.and_eq_true, Bool.not_eq_true'] at hk
    cases hm : mstep env s l with
    | none => rw [hm] at hs; exact absurd hs (by simp)
    | some s1 =>
      simp only [hm] at hs hk
      rw [ih s1 s2 hs hk.2]
      exact mstep_fragment env s s1 l hm hk.1

/-- On the example book while its first resource plays, in the first model:
when the stream of the first resource ends between the critical section of
`SetTrack(2)` and its test of the flag, the worker publishes fragment 1 and
`SetTrack` restarts playback there. -/
theorem SetTrack_after_track_end :
    book3Playing.p.playing = true ∧
    (SetTrack envAll book3Playing 2 [] []).p.fragment = 2 ∧
    (SetTrack envAll book3Playing 2 [(envAll, .trackEnd)] []).p.fragment = 1 ∧
    (SetTrack envAll book3Playing 2 [(envAll, .trackEnd)] []).worker
      = some (.launched 1) := by
  decide

/-- Claim C1, as amended: in every state of the player, whatever the worker
goroutines are doing, the call `SetTrack(i)` begins with its critical section,
which stores 0 in the fragment when `i < 0` and `i` when `0 <= i < n` and
changes nothing else, and which for `i >= n` ends the call with the whole
state as it was: player fields, control thread, goroutines and log, so that
nothing is stopped, restarted or written to the bookmark store, also while
playback is running.  After the critical section the fragment keeps the
stored value, up to the return of `SetTrack` and through the `Play` it
calls, in every execution in which nothing writes it meanwhile: no worker
publishes a track, and no further critical section of `SetTrack` runs. -/
theorem SetTrack_clamp_low_reject_high (env : Env) (s : Sys) (i : Int)
    (hidle : s.ctl = .idle) (halive : s.panicked = false) :
    ∃ s1, mrun s [(env, .call (.SetTrack i)), (env, .control)] = some s1 ∧
      (i < 0 → s1 = { s with p := { s.p with fragment := 0 }, ctl := .setTrackCheck }) ∧
      (0 ≤ i → i < s.p.playList.length →
        s1 = { s with p := { s.p with fragment := i }, ctl := .setTrackCheck }) ∧
      (i ≥ s.p.playList.length → s1 = s) ∧
      ∀ steps s2, mrun s1 steps = some s2 → keepsFragment s1 steps = true →
        s2.p.fragment = s1.p.fragment := by
  have hrun : mrun s [(env, .call (.SetTrack i)), (env, .control)] =
      (cstep env s.p s.log (.setTrackCrit i)).map fun res =>
        { s with p := res.p, ctl := res.ctl, log := res.log } := by
    simp only [mrun, mstep, halive, hidle, Ctl.isIdle, Ctl.enter, Bool.false_eq_true, if_false,
      if_true]
    simp only [cstep]
    split_ifs <;> rfl
  by_cases h0 : i < 0
  · refine ⟨{ s with p := { s.p with fragment := 0 }, ctl := .setTrackCheck }, ?_,
      fun _ => rfl, fun h => absurd h0 (by omega), fun h => ?_,
      fun steps s2 h1 h2 => mrun_fragment steps _ s2 h1 h2⟩
    · rw [hrun]; simp only [cstep, if_pos h0, Option.map_some']
    · have hn : (0 : Int) ≤ s.p.playList.length := Int.natCast_nonneg _
      omega
  · by_cases h1 : i ≥ s.p.playList.length
    · refine ⟨s, ?_, fun h => absurd h h0, fun _ h => absurd h1 (by omega), fun _ => rfl,
        fun steps s2 h1 h2 => mrun_fragment steps _ s2 h1 h2⟩
      rw [hrun]; simp only [cstep, if_neg h0, if_pos h1, Option.map_some']
      cases s
      simp only at hidle
      subst hidle
      rfl
    · refine ⟨{ s with p := { s.p with fragment := i }, ctl := .setTrackCheck }, ?_,
        fun h => absurd h h0, fun _ _ => rfl, fun h => absurd h h1,
        fun steps s2 h1 h2 => mrun_fragment steps _ s2 h1 h2⟩
      rw [hrun]; simp only [cstep, if_neg h0, if_neg h1, Option.map_some']

/-- The amended claim C1 on the example book while its first resource plays:
`SetTrack(2)` stores 2, and in the execution in which the worker publishes
nothing meanwhile the fragment is 2 when `SetTrack` has returned. -/
theorem SetTrack_clamp_low_reject_high_witness :
    sysPlaying.p.playing = true ∧ sysPlaying.p.fragment = 0 ∧
    ∃ s1 s2, mrun sysPlaying [(envAll, .call (.SetTrack 2)), (envAll, .control)] = some s1 ∧
      mrun s1 restartUndisturbed = some s2 ∧ s1.p.fragment = 2 ∧ s2.p.fragment = 2 ∧
      s2.ctl.isIdle = true := by
  obtain ⟨s1, hrun, _, hmid, _, hkeep⟩ :=
    SetTrack_clamp_low_reject_high envAll sysPlaying 2 rfl rfl
  have hs1 := hmid (by decide) (by decide)
  subst hs1
  refine ⟨by decide, by decide, _, _, hrun, rfl, rfl, ?_, rfl⟩
  exact hkeep restartUndisturbed _ rfl rfl

/-- Claim C1 fails on the example book, whose playlist has length 3, for
`SetTrack(2)` while playback is running.  In the first execution the worker
has passed the test of the flag of line 276 when the critical section of
`SetTrack` stores 2, and then publishes fragment 0; in the second one the
stream of the first resource ends after the critical section and the worker
publishes fragment 1.  In both `SetTrack` then finds the flag set and calls
`Play`: when it has returned the fragment is 0, respectively 1, and playback
has been restarted there. -/
theorem SetTrack_overwritten_counterexample :
    navigation setTrackBeforePublish
      = some (3, 0, true, [{ startFragment := 0, pc := .entry }]) ∧
    navigation setTrackBeforeTrackEnd
      = some (3, 1, true, [{ startFragment := 1, pc := .entry }]) := by
  decide

/-! ## A track published after Stop -/

/-- On the example book, `Stop` is called after `Play` has returned and before
the worker has executed its first statement.  `Stop` clears the flag and
writes the bookmark; while it waits for the worker, the worker sets the flag,
publishes the track of fragment 0 and plays it to the end of its stream. -/
theorem Stop_before_worker_begins :
    (run book3 [(envNet, .Play), (envNet, .Stop)]).log
      = [.playingClear, .setBook "id" "name" 0 0, .launch 0,
         .playingClear, .setBook "id" "name" 0 0,
         .playingSet, .connect "u1", .newTrack "u1" true, .rewind 0 true,
         .publish 0, .setFragments 0 3, .play 0, .played 0 0, .close (.conn 1),
         .connect "u2", .playingClear, .done] := by
  decide

/-- The behaviour that contradicts claim C9, on the example book, in two
interleavings of the control thread with the worker of the session.  In both
the worker publishes its track and calls `trk.play()` after `Stop` has cleared
the flag and written its bookmark: in the first because it sets the flag
itself, after `Stop` cleared it; in the second because it tested the flag
before `Stop` cleared it. -/
theorem stale_track_published_after_Stop :
    outcome stopBeforeEntry = some
      ([.playingClear, .setBook "id" "name" 0 0, .launch 0,
        .playingClear, .setBook "id" "name" 0 0,
        .playingSet, .connect "u1", .newTrack "u1" true, .rewind 0 true,
        .publish 0, .setFragments 0 3, .play 0],
       true, true, [.inPlay 0 (.conn 1)]) ∧
    outcome stopBetweenCheckAndPublish = some
      ([.playingClear, .setBook "id" "name" 0 0, .launch 0,
        .playingSet, .connect "u1", .newTrack "u1" true, .rewind 0 true,
        .playingClear, .setBook "id" "name" 0 0,
        .publish 0, .setFragments 0 3, .play 0],
       false, true, [.inPlay 0 (.conn 1)]) := by
  decide

end Av3715
